import Mathlib

/-!
Verification of the red/blue-eyes puzzle simulator.

Shallow embedding of the simulator's core (villagers, the village, the
day-by-day simulation loop, the reasoning policies, the force-leave
enforcement of the external-delegate policy, the JSON extraction helper,
and the population construction / validation entry points), together with
theorems settling the specification's claims about them.

Modelling conventions:
- Python ints that are always non-negative in the code (ids, days, counts)
  become `Nat`; the API entry point that range-checks user input keeps `Int`.
- The villagers' `reasoning_log` and the village's `daily_log` are pure
  write-only narrative (no decision ever reads them); they are omitted from
  the state, and the policies' decision logic is embedded following the
  log-free mirror `_perfect_induction_decide_no_log` that the source itself
  keeps in `src/src/reasoning.py`.
- A reasoning policy is its `decide` function `Villager -> day -> announced
  -> Bool` (the contract of `ReasoningPolicy`): the caller applies the
  departures, the policy only reads the frozen villager snapshot.
- Python floats used for confidences/thresholds become `Rat` (only order
  comparisons happen on them).
- Fallible code (`raise ValueError`) returns `Except String` / `Option`.
-/

namespace RedBlue

/-- Eye colors (`EyeColor` in `src/src/puzzle.py`). -/
inductive EyeColor where
  | RED
  | BLUE
deriving DecidableEq, Repr

/-- A villager (`Villager` in `src/src/puzzle.py`); the write-only
`reasoning_log` is omitted. -/
structure Villager where
  id : Nat
  eye_color : EyeColor
  name : String
  villager_type : String
  observed_red_eyes : Nat
  has_left : Bool
  left_on_day : Option Nat
  observed_left_yesterday : Nat
  observed_left_total : Nat
deriving DecidableEq, Repr

/-- The count `Villager.observe` stores: other villagers that are red-eyed
and still present (`src/src/puzzle.py:56-61`). -/
def countRedOthers (others : List Villager) (self : Villager) : Nat :=
  others.countP fun v =>
    decide (v.id ≠ self.id) && decide (v.eye_color = EyeColor.RED) && !v.has_left

/-- `Villager.observe` (`src/src/puzzle.py:56-61`). -/
def Villager.observe (self : Villager) (others : List Villager) : Villager :=
  { self with observed_red_eyes := countRedOthers others self }

/-- `Villager.leave` (`src/src/puzzle.py:144-147`): unconditionally records
the departure; there is no already-departed guard in the source. -/
def Villager.leave (self : Villager) (day : Nat) : Villager :=
  { self with has_left := true, left_on_day := some day }

/-- The village (`Village` in `src/src/puzzle.py`); the `daily_log`
narrative is omitted and the `reasoning_policy` field is passed to
`simulateDay` as a parameter instead. -/
structure Village where
  villagers : List Villager
  announcement_made : Bool
  current_day : Nat
  knowledge_level : Int
  left_yesterday_count : Nat
deriving DecidableEq, Repr

/-- The `ReasoningPolicy` contract (`src/src/reasoning.py:130-134`): a
deterministic decision on the frozen villager snapshot for a given day and
announcement flag. -/
abbrev ReasoningPolicy := Villager → Nat → Bool → Bool

/-- `_is_blue` (`src/src/reasoning.py:31-33`). -/
def _is_blue (villager : Villager) : Bool :=
  decide (villager.eye_color = EyeColor.BLUE)

/-- `PerfectInductionPolicy.decide` (`src/src/reasoning.py:161-210`), whose
decision logic the source mirrors log-free in
`_perfect_induction_decide_no_log` (`src/src/reasoning.py:36-60`). -/
def perfectInductionDecide (villager : Villager) (day : Nat)
    (public_announcement_made : Bool) : Bool :=
  if villager.has_left then false
  else if !public_announcement_made then false
  else if _is_blue villager then false
  else if villager.observed_red_eyes = 0 then
    if day = 1 then true else false
  else
    let k := villager.observed_red_eyes
    let my_leave_day := k + 1
    if day < my_leave_day then false
    else if day = my_leave_day then true
    else false

/-- `Village.make_announcement` (`src/src/puzzle.py:198-216`): sets the flag
and moves the knowledge level to the common-knowledge sentinel `-1`. -/
def makeAnnouncement (vg : Village) : Village :=
  { vg with announcement_made := true, knowledge_level := -1 }

/-- `Village.add_villager` (`src/src/puzzle.py:177-191`): appends a villager
with the next sequential id; a missing name defaults per `__post_init__`. -/
def addVillager (vg : Village) (eye_color : EyeColor) (name : Option String)
    (villager_type : String) : Village :=
  let villager : Villager :=
    { id := vg.villagers.length + 1
      eye_color := eye_color
      name := name.getD ("村民" ++ toString (vg.villagers.length + 1))
      villager_type := villager_type
      observed_red_eyes := 0
      has_left := false
      left_on_day := none
      observed_left_yesterday := 0
      observed_left_total := 0 }
  { vg with villagers := vg.villagers ++ [villager] }

/-- `Village.initialize_observations` (`src/src/puzzle.py:193-196`).
`observe` only reads fields (`id`, `eye_color`, `has_left`) that the loop
never writes, so the in-place Python loop equals this map over the starting
list. -/
def initializeObservations (vg : Village) : Village :=
  { vg with villagers := vg.villagers.map (fun v => v.observe vg.villagers) }

/-- `Village.simulate_day` (`src/src/puzzle.py:218-264`): one round.
All decisions are taken against the pre-round snapshot (`leaving_today` is
collected first, departures applied after); the observation-refresh loop
only writes `observed_red_eyes` / the two group statistics, which no other
villager's refresh reads, so the in-place loops equal these maps. -/
def simulateDay (policy : ReasoningPolicy) (vg : Village) : Village :=
  let day := vg.current_day + 1
  let vs1 := vg.villagers.map fun v =>
    if v.has_left then v else v.observe vg.villagers
  let total_left_now := vs1.countP (fun v => v.has_left)
  let vs2 := vs1.map fun v =>
    if v.has_left then v
    else { v with observed_left_yesterday := vg.left_yesterday_count
                  observed_left_total := total_left_now }
  let leaving_today := vs2.filter fun v =>
    !v.has_left && policy v day vg.announcement_made
  let vs3 := vs2.map fun v =>
    if !v.has_left && policy v day vg.announcement_made then v.leave day else v
  { vg with villagers := vs3
            current_day := day
            left_yesterday_count := leaving_today.length }

/-- `simulate_day` iterated: the bounded round loop the drivers
(`run_simulation`, the web API) put around `Village.simulate_day`. -/
def runDays (policy : ReasoningPolicy) : Nat → Village → Village
  | 0, vg => vg
  | n + 1, vg => simulateDay policy (runDays policy n vg)

/-- The per-index villager type `create_village` uses
(`src/src/simulation.py:34-46`): `villager_types[idx]` when the list is
given (its length is checked beforehand), the uniform `villager_type`
otherwise. -/
def typeAt (villager_type : String) (villager_types : Option (List String))
    (idx : Nat) : String :=
  match villager_types with
  | some ts => ts.getD idx villager_type
  | none => villager_type

/-- The empty village `create_village` starts from. -/
def emptyVillage : Village :=
  { villagers := []
    announcement_made := false
    current_day := 0
    knowledge_level := 0
    left_yesterday_count := 0 }

/-- The two creation loops of `create_village`
(`src/src/simulation.py:36-46`): reds `红1..红r` first, then blues. -/
def addAllVillagers (vg : Village) (num_red num_blue : Nat)
    (villager_type : String) (villager_types : Option (List String)) : Village :=
  let vg1 := (List.range num_red).foldl
    (fun acc i =>
      addVillager acc EyeColor.RED (some ("红" ++ toString (i + 1)))
        (typeAt villager_type villager_types i))
    vg
  (List.range num_blue).foldl
    (fun acc i =>
      addVillager acc EyeColor.BLUE (some ("蓝" ++ toString (i + 1)))
        (typeAt villager_type villager_types (num_red + i)))
    vg1

/-- `create_village` (`src/src/simulation.py:12-51`): validates the
per-villager type list length before populating, then adds all reds, all
blues, and initializes observations. -/
def createVillage (num_red num_blue : Nat) (villager_type : String)
    (villager_types : Option (List String)) : Except String Village :=
  let total := num_red + num_blue
  match villager_types with
  | some ts =>
    if ts.length ≠ total then
      Except.error ("villager_types length must be " ++ toString total
        ++ ", got " ++ toString ts.length)
    else
      Except.ok (initializeObservations
        (addAllVillagers emptyVillage num_red num_blue villager_type (some ts)))
  | none =>
    Except.ok (initializeObservations
      (addAllVillagers emptyVillage num_red num_blue villager_type none))

/-- `_build_villager_types` (`src/src/web_server.py:129-144`). -/
def buildVillagerTypes (num_red num_blue : Nat) (mode : String) : List String :=
  let total := num_red + num_blue
  if total = 0 then []
  else if mode = "all_openai" then List.replicate total "openai"
  else if mode = "all_dummy" then List.replicate total "dummy"
  else
    let types := List.replicate total "dummy"
    let types := types.set 0 "openai"
    if total > 1 then types.set (total - 1) "openai" else types

/-- `Handler._api_init` (`src/src/web_server.py:222-251`), reduced to its
population-construction path: the eager range check on the requested counts
happens before any village is built; the policy construction and the state
installation carry no checked content. -/
def apiInit (numRed numBlue : Int) (mode : String) : Except String Village :=
  if numRed < 0 ∨ numBlue < 0 ∨ numRed + numBlue > 200 then
    Except.error "Invalid population size"
  else
    let r := numRed.toNat
    let b := numBlue.toNat
    createVillage r b "dummy" (some (buildVillagerTypes r b mode))

end RedBlue

namespace RedBlue

/-! ### Closed forms for the constructed population -/

/-- The red villager at 0-based index `i` (id `i+1`) as `create_village`
builds it, with observation count `obs`. -/
def redVillager (vt : String) (vts : Option (List String)) (i obs : Nat) : Villager :=
  { id := i + 1
    eye_color := EyeColor.RED
    name := "红" ++ toString (i + 1)
    villager_type := typeAt vt vts i
    observed_red_eyes := obs
    has_left := false
    left_on_day := none
    observed_left_yesterday := 0
    observed_left_total := 0 }

/-- The blue villager at 0-based index `r+i` (id `r+i+1`) as
`create_village` builds it, with observation count `obs`. -/
def blueVillager (r : Nat) (vt : String) (vts : Option (List String)) (i obs : Nat) : Villager :=
  { id := r + i + 1
    eye_color := EyeColor.BLUE
    name := "蓝" ++ toString (i + 1)
    villager_type := typeAt vt vts (r + i)
    observed_red_eyes := obs
    has_left := false
    left_on_day := none
    observed_left_yesterday := 0
    observed_left_total := 0 }

/-- The population list `create_village` builds: `r` reds then `b` blues,
with the reds' and blues' observation counters at `ro` / `bo`. -/
def stageVillagers (r b : Nat) (vt : String) (vts : Option (List String))
    (ro bo : Nat) : List Villager :=
  (List.range r).map (fun i => redVillager vt vts i ro)
  ++ (List.range b).map (fun i => blueVillager r vt vts i bo)

lemma addVillager_foldl (mkc : Nat → EyeColor) (mkn mkt : Nat → String) :
    ∀ (n : Nat) (vg : Village),
      ((List.range n).foldl
        (fun acc i => addVillager acc (mkc i) (some (mkn i)) (mkt i)) vg)
      = { vg with villagers := vg.villagers ++ (List.range n).map (fun i =>
            { id := vg.villagers.length + i + 1
              eye_color := mkc i
              name := mkn i
              villager_type := mkt i
              observed_red_eyes := 0
              has_left := false
              left_on_day := none
              observed_left_yesterday := 0
              observed_left_total := 0 }) } := by
  intro n
  induction n with
  | zero => intro vg; simp
  | succ n ih =>
    intro vg
    rw [List.range_succ, List.foldl_append, ih]
    simp only [List.foldl_cons, List.foldl_nil, addVillager, List.range_succ,
      List.map_append, List.map_cons, List.map_nil, List.length_append,
      List.length_map, List.length_range, Option.getD_some, List.append_assoc]

lemma addAllVillagers_empty (r b : Nat) (vt : String) (vts : Option (List String)) :
    addAllVillagers emptyVillage r b vt vts
    = { emptyVillage with villagers := stageVillagers r b vt vts 0 0 } := by
  unfold addAllVillagers
  rw [addVillager_foldl, addVillager_foldl]
  simp only [emptyVillage, stageVillagers, redVillager, blueVillager,
    List.nil_append, List.length_append, List.length_map, List.length_range,
    List.length_nil, Nat.zero_add]

lemma stage_has_left_false (r b : Nat) (vt : String) (vts : Option (List String))
    (ro bo : Nat) : ∀ v ∈ stageVillagers r b vt vts ro bo, v.has_left = false := by
  intro v hv
  rcases List.mem_append.mp hv with h | h <;>
    · obtain ⟨i, _, rfl⟩ := List.mem_map.mp h
      rfl

lemma countP_range_ne (r a : Nat) :
    (List.range r).countP (fun i => decide (i + 1 ≠ a + 1))
    = if a < r then r - 1 else r := by
  induction r with
  | zero => simp
  | succ r ih =>
    rw [List.range_succ, List.countP_append, ih]
    have h1 : List.countP (fun i => decide (i + 1 ≠ a + 1)) [r]
        = if r = a then 0 else 1 := by
      by_cases h : r = a <;> simp [List.countP_cons, h]
    rw [h1]
    split_ifs <;> omega

lemma countRedOthers_stage (r b : Nat) (vt : String) (vts : Option (List String))
    (ro bo : Nat) (self : Villager) (a : Nat) (hid : self.id = a + 1) :
    countRedOthers (stageVillagers r b vt vts ro bo) self
    = if a < r then r - 1 else r := by
  unfold countRedOthers stageVillagers
  rw [List.countP_append, List.countP_map, List.countP_map]
  have hblue : (List.range b).countP
      ((fun v => decide (v.id ≠ self.id) && decide (v.eye_color = EyeColor.RED)
        && !v.has_left) ∘ (fun i => blueVillager r vt vts i bo)) = 0 := by
    apply List.countP_eq_zero.mpr
    intro i _
    simp [blueVillager]
  rw [hblue, Nat.add_zero, ← countP_range_ne r a]
  apply List.countP_congr
  intro i _
  simp [redVillager, hid]

lemma observe_stage (r b : Nat) (vt : String) (vts : Option (List String))
    (ro bo : Nat) :
    ((stageVillagers r b vt vts ro bo).map
      (fun v => v.observe (stageVillagers r b vt vts ro bo)))
    = stageVillagers r b vt vts (r - 1) r := by
  show (((List.range r).map fun i => redVillager vt vts i ro)
      ++ ((List.range b).map fun i => blueVillager r vt vts i bo)).map
        (fun v => v.observe (stageVillagers r b vt vts ro bo))
    = ((List.range r).map fun i => redVillager vt vts i (r - 1))
      ++ ((List.range b).map fun i => blueVillager r vt vts i r)
  rw [List.map_append, List.map_map, List.map_map]
  congr 1
  · apply List.map_congr_left
    intro i hi
    have hi' : i < r := List.mem_range.mp hi
    simp only [Function.comp_apply, Villager.observe]
    rw [countRedOthers_stage r b vt vts ro bo _ i rfl]
    simp [redVillager, hi']
  · apply List.map_congr_left
    intro i hi
    simp only [Function.comp_apply, Villager.observe]
    rw [countRedOthers_stage r b vt vts ro bo _ (r + i) rfl]
    simp [blueVillager, show ¬(r + i < r) by omega]

end RedBlue

namespace RedBlue

/-! ### The canonical run states under PerfectInduction -/

/-- The freshly built village (`create_village`'s result): observations
initialized, nobody departed, announcement not yet made. -/
def preVillage (r b : Nat) (vt : String) (vts : Option (List String)) : Village :=
  { villagers := stageVillagers r b vt vts (r - 1) r
    announcement_made := false
    current_day := 0
    knowledge_level := 0
    left_yesterday_count := 0 }

/-- The state after the announcement and `d` uneventful rounds. -/
def steadyVillage (r b : Nat) (vt : String) (vts : Option (List String))
    (d : Nat) : Village :=
  { villagers := stageVillagers r b vt vts (r - 1) r
    announcement_made := true
    current_day := d
    knowledge_level := -1
    left_yesterday_count := 0 }

/-- The population after all `r` reds left on day `r`. -/
def finalVillagers (r b : Nat) (vt : String) (vts : Option (List String)) :
    List Villager :=
  ((List.range r).map fun i => (redVillager vt vts i (r - 1)).leave r)
  ++ ((List.range b).map fun i => blueVillager r vt vts i r)

/-- The village state right after round `r` (all reds just departed). -/
def finalVillage (r b : Nat) (vt : String) (vts : Option (List String)) : Village :=
  { villagers := finalVillagers r b vt vts
    announcement_made := true
    current_day := r
    knowledge_level := -1
    left_yesterday_count := r }

lemma map_eq_self_of {α : Type _} (l : List α) (f : α → α)
    (h : ∀ a ∈ l, f a = a) : l.map f = l := by
  induction l with
  | nil => rfl
  | cons a t ih =>
    rw [List.map_cons, h a (List.mem_cons_self a t), ih]
    intro x hx
    exact h x (List.mem_cons_of_mem a hx)

lemma stage_elem (r b : Nat) (vt : String) (vts : Option (List String))
    (ro bo : Nat) (v : Villager) (hv : v ∈ stageVillagers r b vt vts ro bo) :
    (∃ i, i < r ∧ v = redVillager vt vts i ro)
    ∨ (∃ i, i < b ∧ v = blueVillager r vt vts i bo) := by
  rcases List.mem_append.mp hv with h | h
  · left
    obtain ⟨i, hi, rfl⟩ := List.mem_map.mp h
    exact ⟨i, List.mem_range.mp hi, rfl⟩
  · right
    obtain ⟨i, hi, rfl⟩ := List.mem_map.mp h
    exact ⟨i, List.mem_range.mp hi, rfl⟩

lemma built_village (r b : Nat) (vt : String) (vts : Option (List String)) :
    initializeObservations (addAllVillagers emptyVillage r b vt vts)
    = preVillage r b vt vts := by
  rw [addAllVillagers_empty]
  unfold initializeObservations preVillage emptyVillage
  simp only []
  congr 1
  exact observe_stage r b vt vts 0 0

lemma createVillage_ok (r b : Nat) (vt : String) (vts : Option (List String))
    (vg : Village) (h : createVillage r b vt vts = Except.ok vg) :
    vg = preVillage r b vt vts := by
  cases vts with
  | none =>
    simp only [createVillage] at h
    rw [built_village] at h
    exact ((Except.ok.injEq _ _).mp h).symm
  | some ts =>
    simp only [createVillage] at h
    by_cases hlen : ts.length ≠ r + b
    · rw [if_pos hlen] at h
      exact Except.noConfusion h
    · rw [if_neg hlen] at h
      rw [built_village] at h
      exact ((Except.ok.injEq _ _).mp h).symm

lemma announce_pre (r b : Nat) (vt : String) (vts : Option (List String)) :
    makeAnnouncement (preVillage r b vt vts) = steadyVillage r b vt vts 0 := rfl

/-! ### Decision evaluations for PerfectInduction -/

lemma pid_blue (v : Villager) (day : Nat) (ann : Bool)
    (h : v.eye_color = EyeColor.BLUE) :
    perfectInductionDecide v day ann = false := by
  unfold perfectInductionDecide _is_blue
  simp [h]

lemma pid_no_announcement (v : Villager) (day : Nat) :
    perfectInductionDecide v day false = false := by
  unfold perfectInductionDecide
  simp

lemma pid_red (v : Villager) (day : Nat) (hl : v.has_left = false)
    (hc : v.eye_color = EyeColor.RED) :
    perfectInductionDecide v day true
    = (if v.observed_red_eyes = 0 then decide (day = 1)
       else decide (day = v.observed_red_eyes + 1)) := by
  unfold perfectInductionDecide _is_blue
  simp only [hl, hc]
  split_ifs <;> simp_all <;> omega

end RedBlue

namespace RedBlue

/-! ### The uneventful rounds before day `r` -/

lemma observe_step_stage (r b : Nat) (vt : String) (vts : Option (List String))
    (ro bo : Nat) :
    ((stageVillagers r b vt vts ro bo).map fun v =>
      if v.has_left then v else v.observe (stageVillagers r b vt vts ro bo))
    = stageVillagers r b vt vts (r - 1) r := by
  have h1 : ((stageVillagers r b vt vts ro bo).map fun v =>
      if v.has_left then v else v.observe (stageVillagers r b vt vts ro bo))
      = (stageVillagers r b vt vts ro bo).map
          (fun v => v.observe (stageVillagers r b vt vts ro bo)) := by
    apply List.map_congr_left
    intro v hv
    rw [stage_has_left_false r b vt vts ro bo v hv]
    simp
  rw [h1, observe_stage]

lemma stage_countP_left (r b : Nat) (vt : String) (vts : Option (List String))
    (ro bo : Nat) :
    (stageVillagers r b vt vts ro bo).countP (fun v => v.has_left) = 0 := by
  apply List.countP_eq_zero.mpr
  intro v hv
  simp [stage_has_left_false r b vt vts ro bo v hv]

lemma stats_step_stage (r b : Nat) (vt : String) (vts : Option (List String))
    (ro bo : Nat) :
    ((stageVillagers r b vt vts ro bo).map fun v =>
      if v.has_left then v
      else { v with observed_left_yesterday := 0, observed_left_total := 0 })
    = stageVillagers r b vt vts ro bo := by
  apply map_eq_self_of
  intro v hv
  rcases stage_elem r b vt vts ro bo v hv with ⟨i, _, rfl⟩ | ⟨i, _, rfl⟩ <;> rfl

lemma steady_decide_false (r b d : Nat) (vt : String) (vts : Option (List String))
    (h : d + 1 < r) :
    ∀ v ∈ stageVillagers r b vt vts (r - 1) r,
      (!v.has_left && perfectInductionDecide v (d + 1) true) = false := by
  intro v hv
  rcases stage_elem r b vt vts (r - 1) r v hv with ⟨i, hi, rfl⟩ | ⟨i, hi, rfl⟩
  · rw [pid_red _ _ rfl rfl]
    have hobs : (redVillager vt vts i (r - 1)).observed_red_eyes = r - 1 := rfl
    rw [hobs]
    have hne : ¬(r - 1 = 0) := by omega
    rw [if_neg hne]
    have hL : (redVillager vt vts i (r - 1)).has_left = false := rfl
    rw [hL]
    simp only [Bool.not_false, Bool.true_and, decide_eq_false_iff_not]
    omega
  · rw [pid_blue _ _ _ rfl]
    simp

lemma steady_step (r b d : Nat) (vt : String) (vts : Option (List String))
    (h : d + 1 < r) :
    simulateDay perfectInductionDecide (steadyVillage r b vt vts d)
    = steadyVillage r b vt vts (d + 1) := by
  simp only [simulateDay, steadyVillage]
  rw [observe_step_stage, stage_countP_left, stats_step_stage]
  have hdec := steady_decide_false r b d vt vts h
  have hfil : ((stageVillagers r b vt vts (r - 1) r).filter fun v =>
      !v.has_left && perfectInductionDecide v (d + 1) true) = [] := by
    rw [List.filter_eq_nil]
    intro v hv
    simp [hdec v hv]
  have hmap : ((stageVillagers r b vt vts (r - 1) r).map fun v =>
      if !v.has_left && perfectInductionDecide v (d + 1) true
      then v.leave (d + 1) else v) = stageVillagers r b vt vts (r - 1) r := by
    apply map_eq_self_of
    intro v hv
    rw [hdec v hv]
    rfl
  rw [hfil, hmap]
  rfl

end RedBlue

namespace RedBlue

/-! ### Day `r`: all reds depart together -/

lemma final_decide (r b : Nat) (vt : String) (vts : Option (List String))
    (hr : 1 ≤ r) :
    ∀ v ∈ stageVillagers r b vt vts (r - 1) r,
      (!v.has_left && perfectInductionDecide v r true)
      = decide (v.eye_color = EyeColor.RED) := by
  intro v hv
  rcases stage_elem r b vt vts (r - 1) r v hv with ⟨i, hi, rfl⟩ | ⟨i, hi, rfl⟩
  · rw [pid_red _ _ rfl rfl]
    have hobs : (redVillager vt vts i (r - 1)).observed_red_eyes = r - 1 := rfl
    rw [hobs]
    have hL : (redVillager vt vts i (r - 1)).has_left = false := rfl
    rw [hL]
    have hc : (redVillager vt vts i (r - 1)).eye_color = EyeColor.RED := rfl
    rw [hc]
    by_cases h0 : r - 1 = 0
    · rw [if_pos h0]
      have : r = 1 := by omega
      simp [this]
    · rw [if_neg h0]
      have : r - 1 + 1 = r := by omega
      simp [this]
  · rw [pid_blue _ _ _ rfl]
    have hL : (blueVillager r vt vts i r).has_left = false := rfl
    rw [hL]
    have hc : (blueVillager r vt vts i r).eye_color = EyeColor.BLUE := rfl
    rw [hc]
    simp

lemma final_step (r b : Nat) (vt : String) (vts : Option (List String))
    (hr : 1 ≤ r) :
    simulateDay perfectInductionDecide (steadyVillage r b vt vts (r - 1))
    = finalVillage r b vt vts := by
  have hday : r - 1 + 1 = r := by omega
  simp only [simulateDay, steadyVillage, finalVillage]
  rw [observe_step_stage, stage_countP_left, stats_step_stage, hday]
  have hdec := final_decide r b vt vts hr
  have hmap : ((stageVillagers r b vt vts (r - 1) r).map fun v =>
      if !v.has_left && perfectInductionDecide v r true
      then v.leave r else v) = finalVillagers r b vt vts := by
    unfold stageVillagers finalVillagers
    rw [List.map_append, List.map_map, List.map_map]
    congr 1
    · apply List.map_congr_left
      intro i hi
      have := hdec (redVillager vt vts i (r - 1))
        (List.mem_append.mpr (Or.inl (List.mem_map.mpr
          ⟨i, List.mem_range.mpr (List.mem_range.mp hi), rfl⟩)))
      simp only [Function.comp_apply]
      simp only [this]
      simp [redVillager]
  have hfil : ((stageVillagers r b vt vts (r - 1) r).filter fun v =>
      !v.has_left && perfectInductionDecide v r true).length = r := by
    have hcong : ((stageVillagers r b vt vts (r - 1) r).filter fun v =>
        !v.has_left && perfectInductionDecide v r true)
        = (stageVillagers r b vt vts (r - 1) r).filter
            (fun v => decide (v.eye_color = EyeColor.RED)) := by
      apply List.filter_congr
      intro v hv
      exact hdec v hv
    rw [hcong]
    unfold stageVillagers
    rw [List.filter_append]
    have h1 : ((List.range r).map fun i => redVillager vt vts i (r - 1)).filter
        (fun v => decide (v.eye_color = EyeColor.RED))
        = (List.range r).map fun i => redVillager vt vts i (r - 1) := by
      rw [List.filter_eq_self]
      intro v hv
      obtain ⟨i, _, rfl⟩ := List.mem_map.mp hv
      simp [redVillager]
    have h2 : ((List.range b).map fun i => blueVillager r vt vts i r).filter
        (fun v => decide (v.eye_color = EyeColor.RED)) = [] := by
      rw [List.filter_eq_nil_iff]
      intro v hv
      obtain ⟨i, _, rfl⟩ := List.mem_map.mp hv
      simp [blueVillager]
    rw [h1, h2]
    simp
  rw [hmap, hfil]

/-! ### Iterating the rounds -/

lemma runDays_steady (r b : Nat) (vt : String) (vts : Option (List String)) :
    ∀ d, d < r →
      runDays perfectInductionDecide d (steadyVillage r b vt vts 0)
      = steadyVillage r b vt vts d := by
  intro d
  induction d with
  | zero => intro _; rfl
  | succ d ih =>
    intro hd
    rw [runDays, ih (by omega), steady_step r b d vt vts hd]

lemma runDays_final (r b : Nat) (vt : String) (vts : Option (List String))
    (hr : 1 ≤ r) :
    runDays perfectInductionDecide r (steadyVillage r b vt vts 0)
    = finalVillage r b vt vts := by
  obtain ⟨s, rfl⟩ : ∃ s, r = s + 1 := ⟨r - 1, by omega⟩
  rw [runDays, runDays_steady (s + 1) b vt vts s (by omega)]
  exact final_step (s + 1) b vt vts hr

end RedBlue

namespace RedBlue

/-! ### Per-villager view of one round -/

@[simp] lemma observe_has_left (v : Villager) (l : List Villager) :
    (v.observe l).has_left = v.has_left := rfl

@[simp] lemma observe_eye_color (v : Villager) (l : List Villager) :
    (v.observe l).eye_color = v.eye_color := rfl

@[simp] lemma observe_left_on_day (v : Villager) (l : List Villager) :
    (v.observe l).left_on_day = v.left_on_day := rfl

@[simp] lemma leave_has_left (v : Villager) (day : Nat) :
    (v.leave day).has_left = true := rfl

@[simp] lemma leave_eye_color (v : Villager) (day : Nat) :
    (v.leave day).eye_color = v.eye_color := rfl

@[simp] lemma leave_left_on_day (v : Villager) (day : Nat) :
    (v.leave day).left_on_day = some day := rfl

/-- What one `simulate_day` round does to a single villager, as a function
of the pre-round snapshot (the decisions read nothing an in-round departure
writes, so the round is this map). -/
def roundUpdate (policy : ReasoningPolicy) (vg : Village) (w : Villager) : Villager :=
  let day := vg.current_day + 1
  let u1 := if w.has_left then w else w.observe vg.villagers
  let total_left_now := (vg.villagers.map fun v =>
    if v.has_left then v else v.observe vg.villagers).countP (fun v => v.has_left)
  let u2 := if u1.has_left then u1
    else { u1 with observed_left_yesterday := vg.left_yesterday_count
                   observed_left_total := total_left_now }
  if !u2.has_left && policy u2 day vg.announcement_made then u2.leave day else u2

lemma simulateDay_villagers (p : ReasoningPolicy) (vg : Village) :
    (simulateDay p vg).villagers = vg.villagers.map (roundUpdate p vg) := by
  simp only [simulateDay, List.map_map]
  rfl

lemma simulateDay_announcement (p : ReasoningPolicy) (vg : Village) :
    (simulateDay p vg).announcement_made = vg.announcement_made := rfl

lemma roundUpdate_of_left (p : ReasoningPolicy) (vg : Village) (w : Villager)
    (h : w.has_left = true) : roundUpdate p vg w = w := by
  unfold roundUpdate
  simp [h]

lemma roundUpdate_eye_color (p : ReasoningPolicy) (vg : Village) (w : Villager) :
    (roundUpdate p vg w).eye_color = w.eye_color := by
  unfold roundUpdate
  simp only [apply_ite Villager.eye_color, leave_eye_color, observe_eye_color,
    ite_self]

lemma runDays_add (p : ReasoningPolicy) (a b : Nat) (vg : Village) :
    runDays p (a + b) vg = runDays p b (runDays p a vg) := by
  induction b with
  | zero => rfl
  | succ b ih => rw [show a + (b + 1) = (a + b) + 1 by omega, runDays, ih, runDays]

lemma runDays_frozen (p : ReasoningPolicy) (vg : Village) (m i : Nat)
    (v : Villager) (hv : vg.villagers[i]? = some v) (hl : v.has_left = true) :
    (runDays p m vg).villagers[i]? = some v := by
  induction m with
  | zero => exact hv
  | succ m ih =>
    rw [runDays, simulateDay_villagers, List.getElem?_map, ih]
    simp [roundUpdate_of_left _ _ _ hl]

lemma blue_stay_step (vg : Village)
    (h : ∀ v ∈ vg.villagers, v.eye_color = EyeColor.BLUE → v.has_left = false) :
    ∀ v ∈ (simulateDay perfectInductionDecide vg).villagers,
      v.eye_color = EyeColor.BLUE → v.has_left = false := by
  intro v hv hb
  rw [simulateDay_villagers] at hv
  obtain ⟨w, hw, rfl⟩ := List.mem_map.mp hv
  rw [roundUpdate_eye_color] at hb
  have hwl : w.has_left = false := h w hw hb
  unfold roundUpdate
  simp only [hwl, Bool.false_eq_true, if_false, observe_has_left]
  rw [pid_blue _ _ _ (by simpa using hb)]
  simp

lemma no_announcement_step (p : ReasoningPolicy) (vg : Village)
    (hp : ∀ v day, p v day false = false)
    (ha : vg.announcement_made = false)
    (h : ∀ v ∈ vg.villagers, v.has_left = false) :
    ∀ v ∈ (simulateDay p vg).villagers, v.has_left = false := by
  intro v hv
  rw [simulateDay_villagers] at hv
  obtain ⟨w, hw, rfl⟩ := List.mem_map.mp hv
  have hwl : w.has_left = false := h w hw
  unfold roundUpdate
  simp only [hwl, Bool.false_eq_true, if_false, observe_has_left, ha]
  rw [hp]
  simp

end RedBlue

namespace RedBlue

lemma runDays_announcement (p : ReasoningPolicy) (m : Nat) (vg : Village) :
    (runDays p m vg).announcement_made = vg.announcement_made := by
  induction m with
  | zero => rfl
  | succ m ih => rw [runDays, simulateDay_announcement, ih]

lemma stage_getElem (r b : Nat) (vt : String) (vts : Option (List String))
    (ro bo i : Nat) (v : Villager)
    (hv : (stageVillagers r b vt vts ro bo)[i]? = some v) :
    (i < r ∧ v = redVillager vt vts i ro)
    ∨ (r ≤ i ∧ i < r + b ∧ v = blueVillager r vt vts (i - r) bo) := by
  unfold stageVillagers at hv
  by_cases hi : i < r
  · left
    rw [List.getElem?_append_left (by simpa using hi), List.getElem?_map,
      List.getElem?_range hi] at hv
    exact ⟨hi, (Option.some.injEq _ _).mp hv |>.symm⟩
  · right
    rw [List.getElem?_append_right (by simpa using hi), List.getElem?_map] at hv
    simp only [List.length_map, List.length_range] at hv
    by_cases hib : i - r < b
    · rw [List.getElem?_range hib] at hv
      exact ⟨by omega, by omega, (Option.some.injEq _ _).mp hv |>.symm⟩
    · rw [List.getElem?_eq_none (by simpa using hib)] at hv
      exact Option.noConfusion hv
end RedBlue

namespace RedBlue

/-- C1: for every population of `k ≥ 1` marked (red-eyed) and `n` unmarked
(blue-eyed) agents, under PerfectInduction with the announcement made before
the first round: nobody departs on rounds `1..k-1`, every marked agent
departs exactly on round `k` with `left_on_day = k`, and no unmarked agent
ever departs on any round. -/
theorem claim_C1_closed_form_convergence (k n : Nat) (vt : String)
    (vts : Option (List String)) (vg : Village)
    (hk : 1 ≤ k) (hok : createVillage k n vt vts = Except.ok vg) :
    (∀ d, d < k →
      ∀ v ∈ (runDays perfectInductionDecide d (makeAnnouncement vg)).villagers,
        v.has_left = false)
    ∧ (∀ v ∈ (runDays perfectInductionDecide k (makeAnnouncement vg)).villagers,
        v.eye_color = EyeColor.RED → v.has_left = true ∧ v.left_on_day = some k)
    ∧ (∀ m,
        ∀ v ∈ (runDays perfectInductionDecide m (makeAnnouncement vg)).villagers,
          v.eye_color = EyeColor.BLUE → v.has_left = false) := by
  have hvg := createVillage_ok k n vt vts vg hok
  subst hvg
  rw [announce_pre]
  refine ⟨?_, ?_, ?_⟩
  · intro d hd v hv
    rw [runDays_steady k n vt vts d hd] at hv
    exact stage_has_left_false _ _ _ _ _ _ v hv
  · intro v hv hred
    rw [runDays_final k n vt vts hk] at hv
    unfold finalVillage finalVillagers at hv
    rcases List.mem_append.mp hv with h | h
    · obtain ⟨i, _, rfl⟩ := List.mem_map.mp h
      exact ⟨rfl, rfl⟩
    · obtain ⟨i, _, rfl⟩ := List.mem_map.mp h
      exact absurd hred (by simp [blueVillager])
  · intro m
    induction m with
    | zero =>
      intro v hv hb
      exact stage_has_left_false _ _ _ _ _ _ v hv
    | succ m ih =>
      intro v hv hb
      rw [runDays] at hv
      exact blue_stay_step _ ih v hv hb

/-- Concrete instance backing C1: two reds and one blue. -/
def c1Village : Village :=
  (createVillage 2 1 "dummy" none).toOption.getD emptyVillage

theorem claim_C1_witness :
    (1 ≤ 2) ∧ (createVillage 2 1 "dummy" none = Except.ok c1Village)
    ∧ (∀ v ∈ (runDays perfectInductionDecide 2
          (makeAnnouncement c1Village)).villagers,
        v.eye_color = EyeColor.RED → v.has_left = true ∧ v.left_on_day = some 2) :=
  ⟨by decide, by rfl,
    (claim_C1_closed_form_convergence 2 1 "dummy" none c1Village
      (by decide) (by rfl)).2.1⟩

/-- C2: `PerfectInductionPolicy.decide` returns true exactly when the agent
is present, the announcement was made, the agent is red-eyed, and either it
observes no red eyes on day 1 (base case) or it observes `k ≥ 1` red eyes
on day `k + 1`; in every other case (including later days) it returns
false. -/
theorem claim_C2_decide_characterization (v : Villager) (day : Nat)
    (announced : Bool) :
    perfectInductionDecide v day announced = true
    ↔ (v.has_left = false ∧ announced = true ∧ v.eye_color = EyeColor.RED
       ∧ ((v.observed_red_eyes = 0 ∧ day = 1)
          ∨ (1 ≤ v.observed_red_eyes ∧ day = v.observed_red_eyes + 1))) := by
  rcases v with ⟨id, ec, nm, vtp, obs, hl, lod, oly, olt⟩
  unfold perfectInductionDecide _is_blue
  cases hl with
  | true => simp
  | false =>
    cases announced with
    | false => simp
    | true =>
      cases ec with
      | BLUE => simp
      | RED =>
        simp only [Bool.not_true, Bool.false_eq_true, if_false, decide_eq_true_eq,
          reduceCtorEq, if_true, true_and]
        by_cases h0 : obs = 0
        · simp [h0]
        · simp only [h0, if_false, false_and, false_or, Nat.one_le_iff_ne_zero,
            ne_eq, not_false_eq_true, true_and]
          split_ifs with h1 h2 <;> simp_all <;> omega

/-- C4: a population with at least one marked agent on which
`make_announcement` is never called sees zero departures under
PerfectInduction, for any number of rounds. -/
theorem claim_C4_no_announcement_invariant (k n m : Nat) (vt : String)
    (vts : Option (List String)) (vg : Village)
    (hk : 1 ≤ k) (hok : createVillage k n vt vts = Except.ok vg) :
    ∀ v ∈ (runDays perfectInductionDecide m vg).villagers,
      v.has_left = false := by
  have hvg := createVillage_ok k n vt vts vg hok
  subst hvg
  induction m with
  | zero => exact fun v hv => stage_has_left_false _ _ _ _ _ _ v hv
  | succ m ih =>
    rw [runDays]
    apply no_announcement_step
    · exact fun w day => pid_no_announcement w day
    · rw [runDays_announcement]
      rfl
    · exact ih

theorem claim_C4_witness :
    (1 ≤ 2) ∧ (createVillage 2 1 "dummy" none = Except.ok c1Village)
    ∧ (∀ v ∈ (runDays perfectInductionDecide 5 c1Village).villagers,
        v.has_left = false) :=
  ⟨by decide, by rfl,
    claim_C4_no_announcement_invariant 2 1 5 "dummy" none c1Village
      (by decide) (by rfl)⟩

/-- C6: departure is monotonic under any policy: once a villager's
`has_left` flag is true after `m1` rounds, its entire record — in
particular the flag and its stamped `left_on_day` — is unchanged after any
`m2 ≥ m1` rounds. -/
theorem claim_C6_departed_monotonic (p : ReasoningPolicy) (vg : Village)
    (m1 m2 i : Nat) (v : Villager) (hm : m1 ≤ m2)
    (hv : (runDays p m1 vg).villagers[i]? = some v)
    (hl : v.has_left = true) :
    (runDays p m2 vg).villagers[i]? = some v := by
  obtain ⟨t, rfl⟩ : ∃ t, m2 = m1 + t := ⟨m2 - m1, by omega⟩
  rw [runDays_add]
  exact runDays_frozen p _ t i v hv hl

/-- The first red villager of `c1Village` after the two rounds in which
both reds depart. -/
def c6Villager : Villager :=
  ((runDays perfectInductionDecide 2
    (makeAnnouncement c1Village)).villagers[0]?).getD
    { id := 0, eye_color := EyeColor.RED, name := "", villager_type := ""
      observed_red_eyes := 0, has_left := false, left_on_day := none
      observed_left_yesterday := 0, observed_left_total := 0 }

theorem claim_C6_witness :
    (2 ≤ 3)
    ∧ ((runDays perfectInductionDecide 2
        (makeAnnouncement c1Village)).villagers[0]? = some c6Villager)
    ∧ (c6Villager.has_left = true)
    ∧ ((runDays perfectInductionDecide 3
        (makeAnnouncement c1Village)).villagers[0]? = some c6Villager) :=
  ⟨by decide, by rfl, by rfl,
    claim_C6_departed_monotonic perfectInductionDecide
      (makeAnnouncement c1Village) 2 3 0 c6Villager
      (by decide) (by rfl) (by rfl)⟩

end RedBlue

namespace RedBlue

/-- An already-departed villager (left on day 3). -/
def c7Villager : Villager :=
  { id := 1, eye_color := EyeColor.RED, name := "红1", villager_type := "dummy"
    observed_red_eyes := 0, has_left := true, left_on_day := some 3
    observed_left_yesterday := 0, observed_left_total := 0 }

/-- C7 counterexample: `Villager.leave` has no no-op guard — called on an
already-departed villager (departed on day 3) with day 5, it overwrites the
stored departure round, so the state does not stay unchanged. -/
theorem claim_C7_counterexample :
    c7Villager.has_left = true ∧ c7Villager.left_on_day = some 3
    ∧ (c7Villager.leave 5).left_on_day = some 5
    ∧ c7Villager.leave 5 ≠ c7Villager := by
  refine ⟨rfl, rfl, rfl, ?_⟩
  decide

/-- C7 (amended): `Villager.leave` has no already-departed guard: it
unconditionally sets the departed flag and overwrites the departure round
with the given day. For an already-departed villager the flag therefore
stays true, but the stored departure round is replaced — the whole state is
unchanged only up to that field. -/
theorem claim_C7_leave_overwrites (v : Villager) (day : Nat)
    (h : v.has_left = true) :
    (v.leave day).has_left = true ∧ (v.leave day).left_on_day = some day
    ∧ v.leave day = { v with left_on_day := some day } := by
  refine ⟨rfl, rfl, ?_⟩
  rcases v with ⟨id, ec, nm, vtp, obs, hl, lod, oly, olt⟩
  simp only at h
  subst h
  rfl

theorem claim_C7_witness :
    (c7Villager.has_left = true)
    ∧ ((c7Villager.leave 5).has_left = true
       ∧ (c7Villager.leave 5).left_on_day = some 5
       ∧ c7Villager.leave 5 = { c7Villager with left_on_day := some 5 }) :=
  ⟨rfl, claim_C7_leave_overwrites c7Villager 5 rfl⟩

/-- C9: population setup rejects invalid parameters before building any
population: the API init path rejects a negative marked count, a negative
unmarked count, or a total above the 200 cap with a descriptive error, and
`create_village` rejects a per-agent type list whose length differs from
the total with a descriptive error; in each case an error is returned and
no village value is produced. -/
theorem claim_C9_invalid_parameters (numRed numBlue : Int) (mode : String)
    (r b : Nat) (vt : String) (ts : List String) :
    ((numRed < 0 ∨ numBlue < 0 ∨ numRed + numBlue > 200)
      → apiInit numRed numBlue mode = Except.error "Invalid population size")
    ∧ (ts.length ≠ r + b
      → createVillage r b vt (some ts)
        = Except.error ("villager_types length must be " ++ toString (r + b)
            ++ ", got " ++ toString ts.length)) := by
  constructor
  · intro h
    unfold apiInit
    rw [if_pos h]
  · intro h
    simp only [createVillage]
    rw [if_pos h]

/-- C10 (implicit): `create_village` assigns ids `1..r+b` in creation order
with all reds first: position `i` (0-based) holds id `i+1`, and the agent
is red-eyed exactly when `i < r` — an id alone determines the trait. -/
theorem claim_C10_ids_determine_trait (r b : Nat) (vt : String)
    (vts : Option (List String)) (vg : Village)
    (hok : createVillage r b vt vts = Except.ok vg) :
    vg.villagers.length = r + b
    ∧ ∀ i v, vg.villagers[i]? = some v
        → v.id = i + 1 ∧ (v.eye_color = EyeColor.RED ↔ i < r) := by
  have hvg := createVillage_ok r b vt vts vg hok
  subst hvg
  constructor
  · show (stageVillagers r b vt vts (r - 1) r).length = r + b
    unfold stageVillagers
    simp
  · intro i v hv
    rcases stage_getElem r b vt vts (r - 1) r i v hv with ⟨hi, rfl⟩ | ⟨hi, hib, rfl⟩
    · exact ⟨rfl, by simp [redVillager, hi]⟩
    · refine ⟨?_, ?_⟩
      · show r + (i - r) + 1 = i + 1
        omega
      · simp only [blueVillager]
        constructor
        · intro hc
          exact absurd hc (by simp)
        · intro hc
          omega

theorem claim_C10_witness :
    (createVillage 2 1 "dummy" none = Except.ok c1Village)
    ∧ c1Village.villagers.length = 2 + 1
    ∧ (∀ i v, c1Village.villagers[i]? = some v
        → v.id = i + 1 ∧ (v.eye_color = EyeColor.RED ↔ i < 2)) :=
  ⟨by rfl,
    (claim_C10_ids_determine_trait 2 1 "dummy" none c1Village (by rfl)).1,
    (claim_C10_ids_determine_trait 2 1 "dummy" none c1Village (by rfl)).2⟩

end RedBlue

namespace RedBlue

/-! ### Round simultaneity: the iteration order over villagers is immaterial -/

/-- Two villages that hold the same agents (up to iteration order) and agree
on all scalar state. -/
def VillageEquiv (x y : Village) : Prop :=
  x.villagers.Perm y.villagers
  ∧ x.announcement_made = y.announcement_made
  ∧ x.current_day = y.current_day
  ∧ x.knowledge_level = y.knowledge_level
  ∧ x.left_yesterday_count = y.left_yesterday_count

lemma observe_congr (l1 l2 : List Villager) (h : l1.Perm l2) (v : Villager) :
    v.observe l1 = v.observe l2 := by
  unfold Villager.observe countRedOthers
  rw [h.countP_eq]

lemma simulateDay_current_day (p : ReasoningPolicy) (vg : Village) :
    (simulateDay p vg).current_day = vg.current_day + 1 := rfl

lemma simulateDay_knowledge (p : ReasoningPolicy) (vg : Village) :
    (simulateDay p vg).knowledge_level = vg.knowledge_level := rfl

/-- The pre-decision stage of one round for a single villager (observation
refresh and group statistics), as a function of the frozen snapshot. -/
def midUpdate (vg : Village) (w : Villager) : Villager :=
  let u1 := if w.has_left then w else w.observe vg.villagers
  let total_left_now := (vg.villagers.map fun v =>
    if v.has_left then v else v.observe vg.villagers).countP (fun v => v.has_left)
  if u1.has_left then u1
  else { u1 with observed_left_yesterday := vg.left_yesterday_count
                 observed_left_total := total_left_now }

lemma simulateDay_left_yesterday (p : ReasoningPolicy) (vg : Village) :
    (simulateDay p vg).left_yesterday_count
    = ((vg.villagers.map (midUpdate vg)).filter fun v =>
        !v.has_left && p v (vg.current_day + 1) vg.announcement_made).length := by
  simp only [simulateDay, midUpdate, List.map_map]
  rfl

lemma totalLeft_congr (x y : Village) (hperm : x.villagers.Perm y.villagers) :
    (x.villagers.map fun v =>
      if v.has_left then v else v.observe x.villagers).countP (fun v => v.has_left)
    = (y.villagers.map fun v =>
      if v.has_left then v else v.observe y.villagers).countP (fun v => v.has_left) := by
  have h1 : (fun v : Villager => if v.has_left then v else v.observe x.villagers)
      = (fun v : Villager => if v.has_left then v else v.observe y.villagers) := by
    funext v
    rw [observe_congr _ _ hperm]
  rw [h1]
  exact (hperm.map _).countP_eq _

lemma midUpdate_congr (x y : Village) (h : VillageEquiv x y) :
    midUpdate x = midUpdate y := by
  obtain ⟨hperm, hann, hday, hkl, hly⟩ := h
  funext w
  unfold midUpdate
  rw [observe_congr _ _ hperm, hly, totalLeft_congr x y hperm]

lemma roundUpdate_congr (p : ReasoningPolicy) (x y : Village)
    (h : VillageEquiv x y) : roundUpdate p x = roundUpdate p y := by
  obtain ⟨hperm, hann, hday, hkl, hly⟩ := h
  funext w
  unfold roundUpdate
  rw [observe_congr _ _ hperm, hly, totalLeft_congr x y hperm, hday, hann]

lemma simulateDay_equiv (p : ReasoningPolicy) (x y : Village)
    (h : VillageEquiv x y) :
    VillageEquiv (simulateDay p x) (simulateDay p y) := by
  obtain ⟨hperm, hann, hday, hkl, hly⟩ := h
  refine ⟨?_, ?_, ?_, ?_, ?_⟩
  · rw [simulateDay_villagers, simulateDay_villagers,
      roundUpdate_congr p x y ⟨hperm, hann, hday, hkl, hly⟩]
    exact hperm.map _
  · rw [simulateDay_announcement, simulateDay_announcement, hann]
  · rw [simulateDay_current_day, simulateDay_current_day, hday]
  · rw [simulateDay_knowledge, simulateDay_knowledge, hkl]
  · rw [simulateDay_left_yesterday, simulateDay_left_yesterday,
      midUpdate_congr x y ⟨hperm, hann, hday, hkl, hly⟩, hday, hann]
    exact ((hperm.map _).filter _).length_eq

lemma runDays_equiv (p : ReasoningPolicy) (m : Nat) (x y : Village)
    (h : VillageEquiv x y) :
    VillageEquiv (runDays p m x) (runDays p m y) := by
  induction m with
  | zero => exact h
  | succ m ih => exact simulateDay_equiv p _ _ ih

/-- C5: within a round all agents decide on the frozen pre-round snapshot,
so reordering the internal iteration order over the villagers changes
neither the resulting population (up to that same reordering) nor — on this
round or any later one — the multiset of departed agent ids or the round
counter/"left yesterday" statistics. -/
theorem claim_C5_round_simultaneity (p : ReasoningPolicy) (vg : Village)
    (l2 : List Villager) (m : Nat) (hperm : vg.villagers.Perm l2) :
    (runDays p m vg).villagers.Perm
      ((runDays p m { vg with villagers := l2 }).villagers)
    ∧ ((((runDays p m vg).villagers.filter fun v => v.has_left).map
          Villager.id : Multiset Nat)
        = (((runDays p m { vg with villagers := l2 }).villagers.filter
            fun v => v.has_left).map Villager.id : Multiset Nat))
    ∧ (runDays p m { vg with villagers := l2 }).left_yesterday_count
      = (runDays p m vg).left_yesterday_count := by
  have h0 : VillageEquiv vg { vg with villagers := l2 } :=
    ⟨hperm, rfl, rfl, rfl, rfl⟩
  have h := runDays_equiv p m vg { vg with villagers := l2 } h0
  obtain ⟨hp, hann, hday, hkl, hly⟩ := h
  refine ⟨hp, ?_, hly.symm⟩
  exact Multiset.coe_eq_coe.mpr ((hp.filter _).map _)

/-- The same three villagers iterated in reverse order. -/
def c5Reversed : List Villager := (makeAnnouncement c1Village).villagers.reverse

theorem claim_C5_witness :
    ((makeAnnouncement c1Village).villagers.Perm c5Reversed)
    ∧ ((runDays perfectInductionDecide 2 (makeAnnouncement c1Village)).villagers.Perm
        ((runDays perfectInductionDecide 2
          { makeAnnouncement c1Village with villagers := c5Reversed }).villagers)
      ∧ ((((runDays perfectInductionDecide 2
            (makeAnnouncement c1Village)).villagers.filter
              fun v => v.has_left).map Villager.id : Multiset Nat)
          = (((runDays perfectInductionDecide 2
              { makeAnnouncement c1Village with villagers := c5Reversed
                }).villagers.filter fun v => v.has_left).map
                Villager.id : Multiset Nat))
      ∧ (runDays perfectInductionDecide 2
          { makeAnnouncement c1Village with villagers := c5Reversed
            }).left_yesterday_count
        = (runDays perfectInductionDecide 2
            (makeAnnouncement c1Village)).left_yesterday_count) :=
  ⟨by decide,
    claim_C5_round_simultaneity perfectInductionDecide
      (makeAnnouncement c1Village) c5Reversed 2 (by decide)⟩

end RedBlue

namespace RedBlue

/-! ### The external-delegate policy's force-leave enforcement
(`src/src/reasoning.py:389-474`). Confidences/thresholds are `Rat`; Python's
`needle in haystack` is the boolean infix test below, `str.strip` the
whitespace trim below. -/

/-- Boolean string-prefix test on character lists. -/
def isPrefixB : List Char → List Char → Bool
  | [], _ => true
  | _ :: _, [] => false
  | a :: as, b :: bs => a == b && isPrefixB as bs

/-- Boolean substring test on character lists (Python's `p in r`). -/
def isInfixB (p : List Char) : List Char → Bool
  | [] => p.isEmpty
  | c :: t => isPrefixB p (c :: t) || isInfixB p t

/-- `needle in haystack` on strings. -/
def containsSub (hay needle : String) : Bool := isInfixB needle.data hay.data

/-- Drop trailing whitespace. -/
def stripRight : List Char → List Char
  | [] => []
  | c :: t =>
    let t' := stripRight t
    if t'.isEmpty && c.isWhitespace then [] else c :: t'

/-- Python's `str.strip`: drop leading and trailing whitespace. -/
def stripChars (l : List Char) : List Char :=
  stripRight (l.dropWhile Char.isWhitespace)

/-- The hedge phrases of `_reason_implies_certain_red_eye`
(`src/src/reasoning.py:401-411`). -/
def neg_phrases : List String :=
  ["不确定", "无法确定", "不能确定", "没法确定", "未能确定",
   "不能确认", "无法确认", "不敢确定", "无法断定"]

/-- The denial phrases (`src/src/reasoning.py:414-429`). -/
def deny_red_phrases : List String :=
  ["不是红眼", "不是红眼睛", "我不是红眼", "我不是红眼睛",
   "不认为自己是红眼", "不认为自己是红眼睛",
   "我不认为自己是红眼", "我不认为自己是红眼睛",
   "确定自己不是红眼", "确定自己不是红眼睛",
   "我确定自己不是红眼", "我确定自己不是红眼睛"]

/-- The first-person positive phrases (`src/src/reasoning.py:434-441`). -/
def positive_red_phrases : List String :=
  ["我是红眼", "我是红眼睛", "我也是红眼", "我也是红眼睛",
   "自己是红眼", "自己是红眼睛"]

/-- The certainty markers (`src/src/reasoning.py:446`). -/
def certainty_markers : List String :=
  ["我确定", "能确定", "可以确定", "我能确定", "我已确定"]

/-- `_reason_implies_certain_red_eye` (`src/src/reasoning.py:389-450`). -/
def _reason_implies_certain_red_eye (reason : String) : Bool :=
  let r := stripChars reason.data
  if r.isEmpty then false
  else if neg_phrases.any (fun p => isInfixB p.data r) then false
  else if deny_red_phrases.any (fun p => isInfixB p.data r) then false
  else if !(positive_red_phrases.any (fun p => isInfixB p.data r)) then false
  else if !(certainty_markers.any (fun p => isInfixB p.data r)) then false
  else true

/-- `_should_force_leave` (`src/src/reasoning.py:453-474`): returns
`(final_leave, forced)`. -/
def _should_force_leave (leave : Bool) (confidence_red : Option Rat)
    (reason : String) (threshold : Rat) : Bool × Bool :=
  match confidence_red with
  | some c =>
    if c ≥ threshold ∧ leave = false then (true, true) else (leave, false)
  | none =>
    if _reason_implies_certain_red_eye reason = true ∧ leave = false
    then (true, true) else (leave, false)

end RedBlue

namespace RedBlue

/-! ### Substring containment survives `strip` (in both directions, for
whitespace-free phrases) -/

lemma isInfixB_nil_left (l : List Char) : isInfixB [] l = true := by
  cases l with
  | nil => rfl
  | cons c t => simp [isInfixB, isPrefixB]

lemma isInfixB_cons_of (p : List Char) (c : Char) (t : List Char)
    (h : isInfixB p t = true) : isInfixB p (c :: t) = true := by
  simp [isInfixB, h]

lemma isPrefixB_stripRight_bwd (q : List Char) :
    ∀ t, isPrefixB q (stripRight t) = true → isPrefixB q t = true := by
  induction q with
  | nil => intro t _; rfl
  | cons a as ih =>
    intro t h
    cases t with
    | nil => simpa [stripRight] using h
    | cons c t' =>
      unfold stripRight at h
      by_cases hc : (stripRight t').isEmpty && c.isWhitespace
      · rw [if_pos hc] at h
        exact absurd h (by simp [isPrefixB])
      · rw [if_neg hc] at h
        simp only [isPrefixB, Bool.and_eq_true, beq_iff_eq] at h ⊢
        exact ⟨h.1, ih t' h.2⟩

lemma isPrefixB_stripRight_fwd (q : List Char) :
    ∀ t, isPrefixB q t = true → (∀ c ∈ q, c.isWhitespace = false)
      → isPrefixB q (stripRight t) = true := by
  induction q with
  | nil => intro t _ _; rfl
  | cons a as ih =>
    intro t h hws
    cases t with
    | nil => simpa [isPrefixB] using h
    | cons c t' =>
      simp only [isPrefixB, Bool.and_eq_true, beq_iff_eq] at h
      obtain ⟨rfl, h2⟩ := h
      have hcw : a.isWhitespace = false := hws a (by simp)
      unfold stripRight
      rw [if_neg (by simp [hcw])]
      simp only [isPrefixB, Bool.and_eq_true, beq_iff_eq]
      exact ⟨trivial, ih t' h2 (fun x hx => hws x (by simp [hx]))⟩

lemma isInfixB_stripRight_bwd (p : List Char) :
    ∀ l, isInfixB p (stripRight l) = true → isInfixB p l = true := by
  intro l
  induction l with
  | nil => intro h; simpa [stripRight] using h
  | cons c t ih =>
    intro h
    unfold stripRight at h
    by_cases hc : (stripRight t).isEmpty && c.isWhitespace
    · rw [if_pos hc] at h
      cases p with
      | nil => exact isInfixB_nil_left _
      | cons a as => exact absurd h (by simp [isInfixB, isPrefixB])
    · rw [if_neg hc] at h
      simp only [isInfixB, Bool.or_eq_true] at h ⊢
      rcases h with h | h
      · cases p with
        | nil => exact Or.inl rfl
        | cons a as =>
          simp only [isPrefixB, Bool.and_eq_true, beq_iff_eq] at h
          exact Or.inl (by
            simp only [isPrefixB, Bool.and_eq_true, beq_iff_eq]
            exact ⟨h.1, isPrefixB_stripRight_bwd as t h.2⟩)
      · exact Or.inr (ih h)

lemma isInfixB_stripRight_fwd (p : List Char) (hne : p ≠ [])
    (hws : ∀ c ∈ p, c.isWhitespace = false) :
    ∀ l, isInfixB p l = true → isInfixB p (stripRight l) = true := by
  intro l
  induction l with
  | nil =>
    intro h
    cases p with
    | nil => exact absurd rfl hne
    | cons a as => exact absurd h (by simp [isInfixB])
  | cons c t ih =>
    intro h
    simp only [isInfixB, Bool.or_eq_true] at h
    rcases h with h | h
    · cases p with
      | nil => exact absurd rfl hne
      | cons a as =>
        simp only [isPrefixB, Bool.and_eq_true, beq_iff_eq] at h
        obtain ⟨rfl, h2⟩ := h
        have hcw : a.isWhitespace = false := hws a (by simp)
        unfold stripRight
        rw [if_neg (by simp [hcw])]
        simp only [isInfixB, Bool.or_eq_true]
        refine Or.inl ?_
        simp only [isPrefixB, Bool.and_eq_true, beq_iff_eq]
        exact ⟨trivial, isPrefixB_stripRight_fwd as t h2
          (fun x hx => hws x (by simp [hx]))⟩
    · have h' := ih h
      unfold stripRight
      by_cases hc : (stripRight t).isEmpty && c.isWhitespace
      · rw [if_pos hc] at *
        have : stripRight t = [] := by
          rcases Bool.and_eq_true _ _ |>.mp hc with ⟨h1, _⟩
          exact List.isEmpty_iff.mp h1
        rw [this] at h'
        cases p with
        | nil => exact absurd rfl hne
        | cons a as => exact absurd h' (by simp [isInfixB])
      · rw [if_neg hc]
        exact isInfixB_cons_of _ _ _ h'

lemma isInfixB_dropWhile_bwd (p : List Char) (q : Char → Bool) :
    ∀ l, isInfixB p (l.dropWhile q) = true → isInfixB p l = true := by
  intro l
  induction l with
  | nil => intro h; simpa using h
  | cons c t ih =>
    intro h
    by_cases hc : q c
    · rw [List.dropWhile_cons_of_pos hc] at h
      exact isInfixB_cons_of _ _ _ (ih h)
    · rwa [List.dropWhile_cons_of_neg hc] at h

lemma isInfixB_dropWhile_fwd (p : List Char) (hne : p ≠ [])
    (hws : ∀ c ∈ p, c.isWhitespace = false) :
    ∀ l, isInfixB p l = true
      → isInfixB p (l.dropWhile Char.isWhitespace) = true := by
  intro l
  induction l with
  | nil =>
    intro h
    simpa using h
  | cons c t ih =>
    intro h
    by_cases hc : c.isWhitespace
    · rw [List.dropWhile_cons_of_pos hc]
      simp only [isInfixB, Bool.or_eq_true] at h
      rcases h with h | h
      · cases p with
        | nil => exact absurd rfl hne
        | cons a as =>
          simp only [isPrefixB, Bool.and_eq_true, beq_iff_eq] at h
          obtain ⟨rfl, _⟩ := h
          exact absurd hc (by simp [hws a (by simp)])
      · exact ih h
    · rwa [List.dropWhile_cons_of_neg hc]

lemma containsSub_strip_bwd (p l : List Char)
    (h : isInfixB p (stripChars l) = true) : isInfixB p l = true :=
  isInfixB_dropWhile_bwd p Char.isWhitespace l
    (isInfixB_stripRight_bwd p _ h)

lemma containsSub_strip_fwd (p l : List Char) (hne : p ≠ [])
    (hws : ∀ c ∈ p, c.isWhitespace = false)
    (h : isInfixB p l = true) : isInfixB p (stripChars l) = true :=
  isInfixB_stripRight_fwd p hne hws _
    (isInfixB_dropWhile_fwd p hne hws l h)

end RedBlue

namespace RedBlue

lemma neg_phrases_wf : ∀ p ∈ neg_phrases,
    p.data ≠ [] ∧ ∀ c ∈ p.data, c.isWhitespace = false := by decide

lemma deny_red_phrases_wf : ∀ p ∈ deny_red_phrases,
    p.data ≠ [] ∧ ∀ c ∈ p.data, c.isWhitespace = false := by decide

lemma heuristic_spec (reason : String)
    (h : _reason_implies_certain_red_eye reason = true) :
    positive_red_phrases.any
      (fun p => isInfixB p.data (stripChars reason.data)) = true
    ∧ certainty_markers.any
      (fun p => isInfixB p.data (stripChars reason.data)) = true := by
  unfold _reason_implies_certain_red_eye at h
  dsimp only at h
  split_ifs at h with h1 h2 h3 h4 h5
  constructor
  · simpa using h4
  · simpa using h5

lemma heuristic_false_of_hedge (reason : String)
    (h : neg_phrases.any
        (fun p => isInfixB p.data (stripChars reason.data)) = true
      ∨ deny_red_phrases.any
        (fun p => isInfixB p.data (stripChars reason.data)) = true) :
    _reason_implies_certain_red_eye reason = false := by
  unfold _reason_implies_certain_red_eye
  dsimp only
  split_ifs with h1 h2 h3 h4 h5
  · rfl
  · rfl
  · rfl
  · rfl
  · rfl
  · rcases h with h | h
    · exact absurd h h2
    · exact absurd h h3

/-- C3: the force-leave enforcement. With a supplied confidence, a parsed
decision of `false` with confidence at or above the threshold is flipped to
`true` and marked forced, and otherwise the decision is kept unforced.
Without a confidence, a flip can only happen when the parsed decision was
`false` and the justification contains an explicit first-person red-eye
assertion together with an explicit certainty marker; and whenever the text
contains any listed hedge or denial phrase the decision is kept unforced,
even if a positive phrase is also present. -/
theorem claim_C3_force_leave_enforcement (leave : Bool) (c threshold : Rat)
    (reason : String) :
    ((c ≥ threshold ∧ leave = false)
      → _should_force_leave leave (some c) reason threshold = (true, true))
    ∧ (¬(c ≥ threshold ∧ leave = false)
      → _should_force_leave leave (some c) reason threshold = (leave, false))
    ∧ (_should_force_leave leave none reason threshold ≠ (leave, false)
      → leave = false
        ∧ positive_red_phrases.any (fun p => containsSub reason p) = true
        ∧ certainty_markers.any (fun p => containsSub reason p) = true)
    ∧ ((neg_phrases.any (fun p => containsSub reason p) = true
        ∨ deny_red_phrases.any (fun p => containsSub reason p) = true)
      → _should_force_leave leave none reason threshold = (leave, false)) := by
  refine ⟨?_, ?_, ?_, ?_⟩
  · intro h
    simp only [_should_force_leave]
    rw [if_pos h]
  · intro h
    simp only [_should_force_leave]
    rw [if_neg h]
  · intro h
    simp only [_should_force_leave] at h
    by_cases hcond : _reason_implies_certain_red_eye reason = true ∧ leave = false
    · obtain ⟨hheur, hleave⟩ := hcond
      obtain ⟨hpos, hcert⟩ := heuristic_spec reason hheur
      refine ⟨hleave, ?_, ?_⟩
      · obtain ⟨p, hmem, hinf⟩ := List.any_eq_true.mp hpos
        exact List.any_eq_true.mpr
          ⟨p, hmem, containsSub_strip_bwd p.data reason.data hinf⟩
      · obtain ⟨p, hmem, hinf⟩ := List.any_eq_true.mp hcert
        exact List.any_eq_true.mpr
          ⟨p, hmem, containsSub_strip_bwd p.data reason.data hinf⟩
    · rw [if_neg hcond] at h
      exact absurd rfl h
  · intro h
    have hstr : neg_phrases.any
        (fun p => isInfixB p.data (stripChars reason.data)) = true
      ∨ deny_red_phrases.any
        (fun p => isInfixB p.data (stripChars reason.data)) = true := by
      rcases h with h | h
      · obtain ⟨p, hmem, hinf⟩ := List.any_eq_true.mp h
        obtain ⟨hne, hws⟩ := neg_phrases_wf p hmem
        exact Or.inl (List.any_eq_true.mpr
          ⟨p, hmem, containsSub_strip_fwd p.data reason.data hne hws hinf⟩)
      · obtain ⟨p, hmem, hinf⟩ := List.any_eq_true.mp h
        obtain ⟨hne, hws⟩ := deny_red_phrases_wf p hmem
        exact Or.inr (List.any_eq_true.mpr
          ⟨p, hmem, containsSub_strip_fwd p.data reason.data hne hws hinf⟩)
    simp only [_should_force_leave]
    rw [if_neg (by simp [heuristic_false_of_hedge reason hstr])]

theorem claim_C3_witness :
    ((97 / 100 : Rat) ≥ 95 / 100 ∧ false = false)
    ∧ _should_force_leave false (some (97 / 100)) "我还不确定，但我猜是红眼"
        (95 / 100) = (true, true) :=
  ⟨⟨by norm_num, rfl⟩,
    (claim_C3_force_leave_enforcement false (97 / 100) (95 / 100)
      "我还不确定，但我猜是红眼").1 ⟨by norm_num, rfl⟩⟩

end RedBlue

namespace RedBlue

/-! ### `_extract_first_json_object` (`src/src/reasoning.py:368-386`)
`json.loads` is modelled by a JSON parser over character lists: values are
null / booleans / numbers (as rationals) / strings / arrays / objects, with
standard JSON whitespace; `loads` skips surrounding whitespace and demands
that the whole input be consumed. (Two modelling notes: object members are
kept as the parsed key/value list rather than collapsed into a dict, and a
`\uXXXX` escape becomes the single code point without surrogate-pair
combination — neither difference is observable in the claims below.) -/

/-- JSON values. -/
inductive Json where
  | null
  | bool (b : Bool)
  | num (q : Rat)
  | str (s : List Char)
  | arr (elems : List Json)
  | obj (members : List (List Char × Json))

/-- JSON whitespace skip (space, tab, CR, LF). -/
def skipWs (l : List Char) : List Char := l.dropWhile Char.isWhitespace

/-- Value of a hex digit. -/
def hexVal (c : Char) : Option Nat :=
  if '0' ≤ c ∧ c ≤ '9' then some (c.toNat - 48)
  else if 'a' ≤ c ∧ c ≤ 'f' then some (c.toNat - 87)
  else if 'A' ≤ c ∧ c ≤ 'F' then some (c.toNat - 55)
  else none

/-- The single-character escapes. -/
def escChar (e : Char) : Option Char :=
  if e = '"' then some '"'
  else if e = '\\' then some '\\'
  else if e = '/' then some '/'
  else if e = 'b' then some (Char.ofNat 8)
  else if e = 'f' then some (Char.ofNat 12)
  else if e = 'n' then some (Char.ofNat 10)
  else if e = 'r' then some (Char.ofNat 13)
  else if e = 't' then some (Char.ofNat 9)
  else none

/-- Parse the rest of a JSON string (after the opening quote); returns the
decoded characters and the remainder after the closing quote. -/
def parseStringRest : Nat → List Char → Option (List Char × List Char)
  | 0, _ => none
  | _ + 1, [] => none
  | fuel + 1, ch :: rest =>
    if ch = '"' then some ([], rest)
    else if ch = '\\' then
      match rest with
      | [] => none
      | e :: rest2 =>
        if e = 'u' then
          match rest2 with
          | h1 :: h2 :: h3 :: h4 :: rest3 =>
            match hexVal h1, hexVal h2, hexVal h3, hexVal h4 with
            | some a, some b, some c, some d =>
              (parseStringRest fuel rest3).map fun pr =>
                (Char.ofNat (((a * 16 + b) * 16 + c) * 16 + d) :: pr.1, pr.2)
            | _, _, _, _ => none
          | _ => none
        else
          match escChar e with
          | some c2 => (parseStringRest fuel rest2).map fun pr => (c2 :: pr.1, pr.2)
          | none => none
    else if ch.toNat < 32 then none
    else (parseStringRest fuel rest).map fun pr => (ch :: pr.1, pr.2)

/-- Numeric value of a digit run. -/
def digitsVal (ds : List Char) : Nat :=
  ds.foldl (fun a c => a * 10 + (c.toNat - 48)) 0

/-- Exponent part after `e`/`E`: optional sign then at least one digit. -/
def parseExpPart (l : List Char) : Option (Int × List Char) :=
  let sgn : Int × List Char :=
    match l with
    | c :: t => if c = '+' then (1, t) else if c = '-' then (-1, t) else (1, l)
    | [] => (1, l)
  let ds := sgn.2.takeWhile Char.isDigit
  if ds.isEmpty then none
  else some (sgn.1 * digitsVal ds, sgn.2.dropWhile Char.isDigit)

/-- Assemble a JSON number. -/
def ratOfParts (neg : Bool) (ip : Nat) (frac : List Char) (ex : Int) : Rat :=
  let base : Rat := (ip : Rat) + (digitsVal frac : Rat) / ((10 : Rat) ^ frac.length)
  (if neg then -base else base) * (10 : Rat) ^ ex

/-- Integer part of a JSON number: `0`, or a nonzero digit run. -/
def parseIntPart (l : List Char) : Option (Nat × List Char) :=
  match l with
  | [] => none
  | c :: t =>
    if c.isDigit then
      if c = '0' then some (0, t)
      else some (digitsVal ((c :: t).takeWhile Char.isDigit),
                 (c :: t).dropWhile Char.isDigit)
    else none

/-- Optional fraction part: `.` followed by at least one digit, else
nothing is consumed. -/
def parseFracPart (l : List Char) : List Char × List Char :=
  match l with
  | c :: t =>
    if c = '.' then
      if (t.takeWhile Char.isDigit).isEmpty then ([], l)
      else (t.takeWhile Char.isDigit, t.dropWhile Char.isDigit)
    else ([], l)
  | [] => ([], l)

/-- Optional exponent part, consuming nothing when malformed. -/
def parseExpOpt (l : List Char) : Int × List Char :=
  match l with
  | e :: t =>
    if e = 'e' ∨ e = 'E' then
      match parseExpPart t with
      | some (x, rr) => (x, rr)
      | none => (0, l)
    else (0, l)
  | [] => (0, l)

/-- Parse a JSON number (maximal valid prefix, as the `json` module's number
regex does; a lone minus, a leading-zero run, or a malformed fraction or
exponent stops the number early exactly as the regex would). -/
def parseNumberRat (l : List Char) : Option (Rat × List Char) :=
  let sgn : Bool × List Char :=
    match l with
    | c :: t => if c = '-' then (true, t) else (false, l)
    | [] => (false, l)
  match parseIntPart sgn.2 with
  | none => none
  | some (ip, r1) =>
    let fr := parseFracPart r1
    let ex := parseExpOpt fr.2
    some (ratOfParts sgn.1 ip fr.1 ex.1, ex.2)

def parseNumber (l : List Char) : Option (Json × List Char) :=
  (parseNumberRat l).map fun pr => (Json.num pr.1, pr.2)

mutual

/-- Parse one JSON value starting at a non-whitespace position. -/
def parseValue : Nat → List Char → Option (Json × List Char)
  | 0, _ => none
  | _ + 1, [] => none
  | fuel + 1, c :: t =>
    if c = '{' then
      (parseMembers fuel t).map fun pr => (Json.obj pr.1, pr.2)
    else if c = '[' then
      (parseElements fuel t).map fun pr => (Json.arr pr.1, pr.2)
    else if c = '"' then
      (parseStringRest fuel t).map fun pr => (Json.str pr.1, pr.2)
    else if c = 't' then
      if t.take 3 = ['r', 'u', 'e'] then some (Json.bool true, t.drop 3)
      else none
    else if c = 'f' then
      if t.take 4 = ['a', 'l', 's', 'e'] then some (Json.bool false, t.drop 4)
      else none
    else if c = 'n' then
      if t.take 3 = ['u', 'l', 'l'] then some (Json.null, t.drop 3)
      else none
    else if c = '-' ∨ c.isDigit then parseNumber (c :: t)
    else none

/-- Parse the members of an object (input is just after the `{`). -/
def parseMembers : Nat → List Char →
    Option (List (List Char × Json) × List Char)
  | 0, _ => none
  | fuel + 1, l =>
    match skipWs l with
    | c :: r =>
      if c = '}' then some ([], r) else parseMembersRest fuel (c :: r)
    | [] => none

/-- Parse `"key": value` members separated by commas, ending at `}` (input
is whitespace-skipped and nonempty-object). -/
def parseMembersRest : Nat → List Char →
    Option (List (List Char × Json) × List Char)
  | 0, _ => none
  | fuel + 1, l =>
    match l with
    | c :: t =>
      if c = '"' then
        match parseStringRest fuel t with
        | none => none
        | some (key, r1) =>
          match skipWs r1 with
          | c1 :: r2 =>
            if c1 = ':' then
              match parseValue fuel (skipWs r2) with
              | none => none
              | some (v, r3) =>
                match skipWs r3 with
                | c2 :: r4 =>
                  if c2 = ',' then
                    match parseMembersRest fuel (skipWs r4) with
                    | none => none
                    | some (ms, r5) => some ((key, v) :: ms, r5)
                  else if c2 = '}' then some ([(key, v)], r4)
                  else none
                | [] => none
            else none
          | [] => none
      else none
    | [] => none

/-- Parse the elements of an array (input is just after the `[`). -/
def parseElements : Nat → List Char → Option (List Json × List Char)
  | 0, _ => none
  | fuel + 1, l =>
    match skipWs l with
    | c :: r =>
      if c = ']' then some ([], r) else parseElementsRest fuel (c :: r)
    | [] => none

/-- Parse comma-separated array elements ending at `]`. -/
def parseElementsRest : Nat → List Char → Option (List Json × List Char)
  | 0, _ => none
  | fuel + 1, l =>
    match parseValue fuel l with
    | none => none
    | some (v, r1) =>
      match skipWs r1 with
      | c :: r2 =>
        if c = ',' then
          match parseElementsRest fuel (skipWs r2) with
          | none => none
          | some (vs, r3) => some (v :: vs, r3)
        else if c = ']' then some ([v], r2)
        else none
      | [] => none

end

/-- Ample fuel for an input of this length. -/
def jsonFuel (l : List Char) : Nat := 4 * l.length + 16

/-- `json.loads`: parse one value, tolerating surrounding whitespace,
requiring full consumption; `none` models the raised `JSONDecodeError`. -/
def jsonLoads (l : List Char) : Option Json :=
  match parseValue (jsonFuel l) (skipWs l) with
  | some (v, r) => if (skipWs r).isEmpty then some v else none
  | none => none

/-- Python's `text.find("{")`: first index of `{`, if any. -/
def pyFindBrace (l : List Char) : Option Nat := l.findIdx? (fun c => c == '{')

/-- Python's `text.rfind("}")`: last index of `}`, if any. -/
def pyRFindBrace (l : List Char) : Option Nat :=
  match l.reverse.findIdx? (fun c => c == '}') with
  | some i => some (l.length - 1 - i)
  | none => none

/-- The slice `text[start : end + 1]` from the first `{` to the last `}`
when both exist and `end > start` (the fallback snippet of
`_extract_first_json_object`). -/
def braceSpan (t : List Char) : Option (List Char) :=
  match pyFindBrace t, pyRFindBrace t with
  | some s, some e => if s < e then some ((t.drop s).take (e - s + 1)) else none
  | _, _ => none

/-- `_extract_first_json_object` (`src/src/reasoning.py:368-386`): strip the
text, try `json.loads` on the whole of it (returning it only when it is an
object), else slice from the first `{` to the last `}` and return that parse
when it is an object; every other path raises (`none`). -/
def _extract_first_json_object (text : String) : Option Json :=
  let t := stripChars text.data
  match jsonLoads t with
  | some (Json.obj m) => some (Json.obj m)
  | _ =>
    match braceSpan t with
    | some snippet =>
      match jsonLoads snippet with
      | some (Json.obj m) => some (Json.obj m)
      | _ => none
    | none => none

/-- Spec-side (from the claim's words): the slice `[i, j)` of the text is a
well-formed JSON object, exactly (no surrounding characters). -/
def sliceIsJsonObject (l : List Char) (i j : Nat) : Bool :=
  match parseValue (jsonFuel ((l.drop i).take (j - i))) ((l.drop i).take (j - i)) with
  | some (Json.obj _, []) => true
  | _ => false

/-- Spec-side (from the claim's words): the text contains a well-formed
JSON object as a contiguous substring. -/
def containsJsonObject (text : String) : Bool :=
  (List.range (text.data.length + 1)).any fun i =>
    (List.range (text.data.length + 1)).any fun j =>
      sliceIsJsonObject text.data i j

end RedBlue

namespace RedBlue

/-! ### The parser only consumes from the front -/

lemma suffix_of_cons_suffix {a : Char} {r l : List Char}
    (h : (a :: r) <:+ l) : r <:+ l :=
  (List.suffix_cons a r).trans h

lemma skipWs_suffix (l : List Char) : skipWs l <:+ l :=
  List.dropWhile_suffix _

lemma parseStringRest_suffix : ∀ fuel l s r,
    parseStringRest fuel l = some (s, r) → r <:+ l := by
  intro fuel
  induction fuel with
  | zero => intro l s r h; simp [parseStringRest] at h
  | succ fuel ih =>
    intro l s r h
    cases l with
    | nil => simp [parseStringRest] at h
    | cons ch rest =>
      unfold parseStringRest at h
      by_cases h1 : ch = '"'
      · rw [if_pos h1] at h
        simp only [Option.some.injEq, Prod.mk.injEq] at h
        rw [← h.2]
        exact List.suffix_cons ch rest
      · rw [if_neg h1] at h
        by_cases h2 : ch = '\\'
        · rw [if_pos h2] at h
          cases rest with
          | nil => simp at h
          | cons e rest2 =>
            dsimp only at h
            by_cases h3 : e = 'u'
            · rw [if_pos h3] at h
              rcases rest2 with _ | ⟨a1, _ | ⟨a2, _ | ⟨a3, _ | ⟨a4, rest3⟩⟩⟩⟩ <;>
                try simp at h
              rcases hx1 : hexVal a1 with _ | v1 <;> rw [hx1] at h <;>
                try simp at h
              rcases hx2 : hexVal a2 with _ | v2 <;> rw [hx2] at h <;>
                try simp at h
              rcases hx3 : hexVal a3 with _ | v3 <;> rw [hx3] at h <;>
                try simp at h
              rcases hx4 : hexVal a4 with _ | v4 <;> rw [hx4] at h <;>
                try simp at h
              obtain ⟨s', hp, _⟩ := h
              exact (ih rest3 s' r hp).trans ⟨[ch, e, a1, a2, a3, a4], rfl⟩
            · rw [if_neg h3] at h
              rcases hesc : escChar e with _ | c2 <;> rw [hesc] at h <;>
                try simp at h
              obtain ⟨s', hp, _⟩ := h
              exact (ih rest2 s' r hp).trans ⟨[ch, e], rfl⟩
        · rw [if_neg h2] at h
          by_cases h4 : ch.toNat < 32
          · rw [if_pos h4] at h
            simp at h
          · rw [if_neg h4] at h
            obtain ⟨⟨s', r'⟩, hp, heq⟩ := Option.map_eq_some'.mp h
            simp only [Prod.mk.injEq] at heq
            rw [← heq.2]
            exact (ih rest s' r' hp).trans ⟨[ch], rfl⟩

lemma parseExpPart_suffix (l : List Char) (x : Int) (r : List Char)
    (h : parseExpPart l = some (x, r)) : r <:+ l := by
  unfold parseExpPart at h
  dsimp only at h
  split at h
  · simp at h
  · simp only [Option.some.injEq, Prod.mk.injEq] at h
    rw [← h.2]
    cases l with
    | nil => exact List.dropWhile_suffix _
    | cons c t =>
      dsimp only
      by_cases h1 : c = '+'
      · simp only [if_pos h1]
        exact (List.dropWhile_suffix _).trans (List.suffix_cons c t)
      · by_cases h2 : c = '-'
        · simp only [if_neg h1, if_pos h2]
          exact (List.dropWhile_suffix _).trans (List.suffix_cons c t)
        · simp only [if_neg h1, if_neg h2]
          exact List.dropWhile_suffix _

end RedBlue

namespace RedBlue

lemma parseIntPart_suffix (l : List Char) (ip : Nat) (r : List Char)
    (h : parseIntPart l = some (ip, r)) : r <:+ l := by
  cases l with
  | nil => simp [parseIntPart] at h
  | cons c t =>
    unfold parseIntPart at h
    dsimp only at h
    by_cases h1 : c.isDigit
    · rw [if_pos h1] at h
      by_cases h2 : c = '0'
      · rw [if_pos h2] at h
        simp only [Option.some.injEq, Prod.mk.injEq] at h
        rw [← h.2]
        exact List.suffix_cons c t
      · rw [if_neg h2] at h
        simp only [Option.some.injEq, Prod.mk.injEq] at h
        rw [← h.2]
        exact List.dropWhile_suffix _
    · rw [if_neg h1] at h
      simp at h

lemma parseFracPart_suffix (l : List Char) : (parseFracPart l).2 <:+ l := by
  cases l with
  | nil => exact List.suffix_rfl
  | cons c t =>
    unfold parseFracPart
    dsimp only
    by_cases h1 : c = '.'
    · rw [if_pos h1]
      by_cases h2 : (t.takeWhile Char.isDigit).isEmpty
      · rw [if_pos h2]
      · rw [if_neg h2]
        exact (List.dropWhile_suffix _).trans (List.suffix_cons c t)
    · rw [if_neg h1]

lemma parseExpOpt_suffix (l : List Char) : (parseExpOpt l).2 <:+ l := by
  cases l with
  | nil => exact List.suffix_rfl
  | cons e t =>
    unfold parseExpOpt
    dsimp only
    by_cases h1 : e = 'e' ∨ e = 'E'
    · rw [if_pos h1]
      cases hp : parseExpPart t with
      | none => exact List.suffix_rfl
      | some pr =>
        dsimp only
        exact (parseExpPart_suffix t pr.1 pr.2 (by rw [hp])).trans
          (List.suffix_cons e t)
    · rw [if_neg h1]

lemma parseNumberRat_suffix (l : List Char) (q : Rat) (r : List Char)
    (h : parseNumberRat l = some (q, r)) : r <:+ l := by
  unfold parseNumberRat at h
  dsimp only at h
  have hsgn : (match l with
      | c :: t => if c = '-' then (true, t) else (false, l)
      | [] => ((false : Bool), l)).2 <:+ l := by
    cases l with
    | nil => exact List.suffix_rfl
    | cons c t =>
      dsimp only
      by_cases h1 : c = '-'
      · rw [if_pos h1]
        exact List.suffix_cons c t
      · rw [if_neg h1]
  cases hip : parseIntPart (match l with
      | c :: t => if c = '-' then (true, t) else (false, l)
      | [] => ((false : Bool), l)).2 with
  | none => rw [hip] at h; simp at h
  | some pr =>
    rw [hip] at h
    simp only [Option.some.injEq, Prod.mk.injEq] at h
    rw [← h.2]
    exact ((parseExpOpt_suffix (parseFracPart pr.2).2).trans
      (parseFracPart_suffix pr.2)).trans
      ((parseIntPart_suffix _ pr.1 pr.2 (by rw [hip])).trans hsgn)

lemma parseNumber_suffix (l : List Char) (v : Json) (r : List Char)
    (h : parseNumber l = some (v, r)) : r <:+ l := by
  unfold parseNumber at h
  obtain ⟨⟨q, r'⟩, hp, heq⟩ := Option.map_eq_some'.mp h
  simp only [Prod.mk.injEq] at heq
  rw [← heq.2]
  exact parseNumberRat_suffix l q r' hp

lemma parseNumber_shape (l : List Char) (v : Json) (r : List Char)
    (h : parseNumber l = some (v, r)) : ∃ q, v = Json.num q := by
  unfold parseNumber at h
  obtain ⟨⟨q, r'⟩, _, heq⟩ := Option.map_eq_some'.mp h
  simp only [Prod.mk.injEq] at heq
  exact ⟨q, heq.1.symm⟩

end RedBlue

namespace RedBlue

lemma parse_suffix : ∀ fuel,
    (∀ l v r, parseValue fuel l = some (v, r) → r <:+ l)
    ∧ (∀ l x r, parseMembers fuel l = some (x, r) → ('}' :: r) <:+ l)
    ∧ (∀ l x r, parseMembersRest fuel l = some (x, r) → ('}' :: r) <:+ l)
    ∧ (∀ l x r, parseElements fuel l = some (x, r) → (']' :: r) <:+ l)
    ∧ (∀ l x r, parseElementsRest fuel l = some (x, r) → (']' :: r) <:+ l) := by
  intro fuel
  induction fuel with
  | zero =>
    refine ⟨?_, ?_, ?_, ?_, ?_⟩ <;> intro l x r h <;> simp
      [parseValue, parseMembers, parseMembersRest, parseElements,
        parseElementsRest] at h
  | succ fuel ih =>
    obtain ⟨ihv, ihm, ihmr, ihe, iher⟩ := ih
    refine ⟨?_, ?_, ?_, ?_, ?_⟩
    · intro l v r h
      cases l with
      | nil => simp [parseValue] at h
      | cons c t =>
        unfold parseValue at h
        by_cases h1 : c = '{'
        · rw [if_pos h1] at h
          obtain ⟨⟨ms, r'⟩, hm, heq⟩ := Option.map_eq_some'.mp h
          simp only [Prod.mk.injEq] at heq
          rw [← heq.2]
          exact (suffix_of_cons_suffix (ihm t ms r' hm)).trans
            (List.suffix_cons c t)
        · rw [if_neg h1] at h
          by_cases h2 : c = '['
          · rw [if_pos h2] at h
            obtain ⟨⟨es, r'⟩, hm, heq⟩ := Option.map_eq_some'.mp h
            simp only [Prod.mk.injEq] at heq
            rw [← heq.2]
            exact (suffix_of_cons_suffix (ihe t es r' hm)).trans
              (List.suffix_cons c t)
          · rw [if_neg h2] at h
            by_cases h3 : c = '"'
            · rw [if_pos h3] at h
              obtain ⟨⟨sc, r'⟩, hm, heq⟩ := Option.map_eq_some'.mp h
              simp only [Prod.mk.injEq] at heq
              rw [← heq.2]
              exact (parseStringRest_suffix fuel t sc r' hm).trans
                (List.suffix_cons c t)
            · rw [if_neg h3] at h
              by_cases h4 : c = 't'
              · rw [if_pos h4] at h
                by_cases ht : t.take 3 = ['r', 'u', 'e']
                · rw [if_pos ht] at h
                  simp only [Option.some.injEq, Prod.mk.injEq] at h
                  rw [← h.2]
                  exact (List.drop_suffix 3 t).trans (List.suffix_cons c t)
                · rw [if_neg ht] at h
                  simp at h
              · rw [if_neg h4] at h
                by_cases h5 : c = 'f'
                · rw [if_pos h5] at h
                  by_cases ht : t.take 4 = ['a', 'l', 's', 'e']
                  · rw [if_pos ht] at h
                    simp only [Option.some.injEq, Prod.mk.injEq] at h
                    rw [← h.2]
                    exact (List.drop_suffix 4 t).trans (List.suffix_cons c t)
                  · rw [if_neg ht] at h
                    simp at h
                · rw [if_neg h5] at h
                  by_cases h6 : c = 'n'
                  · rw [if_pos h6] at h
                    by_cases ht : t.take 3 = ['u', 'l', 'l']
                    · rw [if_pos ht] at h
                      simp only [Option.some.injEq, Prod.mk.injEq] at h
                      rw [← h.2]
                      exact (List.drop_suffix 3 t).trans (List.suffix_cons c t)
                    · rw [if_neg ht] at h
                      simp at h
                  · rw [if_neg h6] at h
                    by_cases h7 : c = '-' ∨ c.isDigit
                    · rw [if_pos h7] at h
                      exact parseNumber_suffix (c :: t) v r h
                    · rw [if_neg h7] at h
                      simp at h
    · intro l x r h
      unfold parseMembers at h
      cases hws : skipWs l with
      | nil => rw [hws] at h; simp at h
      | cons c rr =>
        rw [hws] at h
        dsimp only at h
        by_cases hc : c = '}'
        · rw [if_pos hc] at h
          simp only [Option.some.injEq, Prod.mk.injEq] at h
          rw [← h.2, ← hc, ← hws]
          exact skipWs_suffix l
        · rw [if_neg hc] at h
          have hsfx : (c :: rr) <:+ l := hws ▸ skipWs_suffix l
          exact (ihmr (c :: rr) x r h).trans hsfx
    · intro l x r h
      unfold parseMembersRest at h
      cases l with
      | nil => simp at h
      | cons c t =>
        dsimp only at h
        by_cases hc : c = '"'
        · rw [if_pos hc] at h
          cases hstr : parseStringRest fuel t with
          | none => rw [hstr] at h; simp at h
          | some pr =>
            rw [hstr] at h
            obtain ⟨key, r1⟩ := pr
            dsimp only at h
            have hr1 : r1 <:+ t := parseStringRest_suffix fuel t key r1 hstr
            cases hws1 : skipWs r1 with
            | nil => rw [hws1] at h; simp at h
            | cons c1 r2 =>
              rw [hws1] at h
              dsimp only at h
              by_cases hc1 : c1 = ':'
              · rw [if_pos hc1] at h
                cases hval : parseValue fuel (skipWs r2) with
                | none => rw [hval] at h; simp at h
                | some pv =>
                  rw [hval] at h
                  obtain ⟨v, r3⟩ := pv
                  dsimp only at h
                  have hr3 : r3 <:+ skipWs r2 := ihv _ v r3 hval
                  cases hws3 : skipWs r3 with
                  | nil => rw [hws3] at h; simp at h
                  | cons c2 r4 =>
                    rw [hws3] at h
                    dsimp only at h
                    have hchain : (c2 :: r4) <:+ c :: t := by
                      have s1 : (c2 :: r4) <:+ r3 := hws3 ▸ skipWs_suffix r3
                      have s2 : r3 <:+ r2 := hr3.trans (skipWs_suffix r2)
                      have s3 : r2 <:+ r1 :=
                        suffix_of_cons_suffix (hws1 ▸ skipWs_suffix r1)
                      exact ((s1.trans s2).trans s3).trans
                        (hr1.trans (List.suffix_cons c t))
                    by_cases hc2 : c2 = ','
                    · rw [if_pos hc2] at h
                      cases hrest : parseMembersRest fuel (skipWs r4) with
                      | none => rw [hrest] at h; simp at h
                      | some pm =>
                        rw [hrest] at h
                        obtain ⟨ms, r5⟩ := pm
                        dsimp only at h
                        simp only [Option.some.injEq, Prod.mk.injEq] at h
                        rw [← h.2]
                        exact (ihmr _ ms r5 hrest).trans
                          ((skipWs_suffix r4).trans
                            ((List.suffix_cons c2 r4).trans hchain))
                    · rw [if_neg hc2] at h
                      by_cases hc2b : c2 = '}'
                      · rw [if_pos hc2b] at h
                        simp only [Option.some.injEq, Prod.mk.injEq] at h
                        rw [← h.2, ← hc2b]
                        exact hchain
                      · rw [if_neg hc2b] at h
                        simp at h
              · rw [if_neg hc1] at h
                simp at h
        · rw [if_neg hc] at h
          simp at h
    · intro l x r h
      unfold parseElements at h
      cases hws : skipWs l with
      | nil => rw [hws] at h; simp at h
      | cons c rr =>
        rw [hws] at h
        dsimp only at h
        by_cases hc : c = ']'
        · rw [if_pos hc] at h
          simp only [Option.some.injEq, Prod.mk.injEq] at h
          rw [← h.2, ← hc, ← hws]
          exact skipWs_suffix l
        · rw [if_neg hc] at h
          have hsfx : (c :: rr) <:+ l := hws ▸ skipWs_suffix l
          exact (iher (c :: rr) x r h).trans hsfx
    · intro l x r h
      unfold parseElementsRest at h
      cases hval : parseValue fuel l with
      | none => rw [hval] at h; simp at h
      | some pv =>
        rw [hval] at h
        obtain ⟨v, r1⟩ := pv
        dsimp only at h
        have hr1 : r1 <:+ l := ihv l v r1 hval
        cases hws1 : skipWs r1 with
        | nil => rw [hws1] at h; simp at h
        | cons c1 r2 =>
          rw [hws1] at h
          dsimp only at h
          have hchain : (c1 :: r2) <:+ l :=
            (hws1 ▸ skipWs_suffix r1).trans hr1
          by_cases hc1 : c1 = ','
          · rw [if_pos hc1] at h
            cases hrest : parseElementsRest fuel (skipWs r2) with
            | none => rw [hrest] at h; simp at h
            | some pe =>
              rw [hrest] at h
              obtain ⟨vs, r3⟩ := pe
              dsimp only at h
              simp only [Option.some.injEq, Prod.mk.injEq] at h
              rw [← h.2]
              exact (iher _ vs r3 hrest).trans ((skipWs_suffix r2).trans
                ((List.suffix_cons c1 r2).trans hchain))
          · rw [if_neg hc1] at h
            by_cases hc1b : c1 = ']'
            · rw [if_pos hc1b] at h
              simp only [Option.some.injEq, Prod.mk.injEq] at h
              rw [← h.2, ← hc1b]
              exact hchain
            · rw [if_neg hc1b] at h
              simp at h

end RedBlue

namespace RedBlue

lemma parseValue_obj_head (fuel : Nat) (l : List Char)
    (m : List (List Char × Json)) (r : List Char)
    (h : parseValue fuel l = some (Json.obj m, r)) : ∃ t, l = '{' :: t := by
  cases fuel with
  | zero => simp [parseValue] at h
  | succ fuel =>
    cases l with
    | nil => simp [parseValue] at h
    | cons c t =>
      refine ⟨t, ?_⟩
      unfold parseValue at h
      by_cases h1 : c = '{'
      · rw [h1]
      · exfalso
        rw [if_neg h1] at h
        by_cases h2 : c = '['
        · rw [if_pos h2] at h
          obtain ⟨⟨es, r'⟩, _, heq⟩ := Option.map_eq_some'.mp h
          simp at heq
        · rw [if_neg h2] at h
          by_cases h3 : c = '"'
          · rw [if_pos h3] at h
            obtain ⟨⟨sc, r'⟩, _, heq⟩ := Option.map_eq_some'.mp h
            simp at heq
          · rw [if_neg h3] at h
            by_cases h4 : c = 't'
            · rw [if_pos h4] at h
              by_cases ht : t.take 3 = ['r', 'u', 'e']
              · rw [if_pos ht] at h
                simp at h
              · rw [if_neg ht] at h
                simp at h
            · rw [if_neg h4] at h
              by_cases h5 : c = 'f'
              · rw [if_pos h5] at h
                by_cases ht : t.take 4 = ['a', 'l', 's', 'e']
                · rw [if_pos ht] at h
                  simp at h
                · rw [if_neg ht] at h
                  simp at h
              · rw [if_neg h5] at h
                by_cases h6 : c = 'n'
                · rw [if_pos h6] at h
                  by_cases ht : t.take 3 = ['u', 'l', 'l']
                  · rw [if_pos ht] at h
                    simp at h
                  · rw [if_neg ht] at h
                    simp at h
                · rw [if_neg h6] at h
                  by_cases h7 : c = '-' ∨ c.isDigit
                  · rw [if_pos h7] at h
                    obtain ⟨q, hq⟩ := parseNumber_shape _ _ _ h
                    exact Json.noConfusion hq
                  · rw [if_neg h7] at h
                    simp at h

lemma stripRight_cases (c : Char) (t : List Char) :
    stripRight (c :: t) = [] ∨ stripRight (c :: t) = c :: stripRight t := by
  unfold stripRight
  dsimp only
  by_cases h : (stripRight t).isEmpty && c.isWhitespace
  · left
    rw [if_pos h]
  · right
    rw [if_neg h]
    rw [stripRight.eq_def]

lemma dropWhile_head_false (p : Char → Bool) :
    ∀ (l : List Char) (c : Char) (t : List Char),
      l.dropWhile p = c :: t → p c = false := by
  intro l
  induction l with
  | nil => intro c t h; simp at h
  | cons a l' ih =>
    intro c t h
    by_cases ha : p a
    · rw [List.dropWhile_cons_of_pos ha] at h
      exact ih c t h
    · rw [List.dropWhile_cons_of_neg ha] at h
      injection h with h1 _
      rw [← h1]
      simpa using ha

lemma stripChars_skipWs (x : List Char) :
    skipWs (stripChars x) = stripChars x := by
  unfold stripChars
  cases hd : x.dropWhile Char.isWhitespace with
  | nil => rfl
  | cons c t =>
    have hc : c.isWhitespace = false := dropWhile_head_false _ x c t hd
    rcases stripRight_cases c t with h | h
    · rw [h]
      rfl
    · rw [h]
      unfold skipWs
      rw [List.dropWhile_cons_of_neg (by simp [hc])]

lemma stripRight_last : ∀ (y pre : List Char) (c : Char),
    stripRight y = pre ++ [c] → c.isWhitespace = false := by
  intro y
  induction y with
  | nil => intro pre c h; simp [stripRight] at h
  | cons a t ih =>
    intro pre c h
    unfold stripRight at h
    dsimp only at h
    by_cases hc : (stripRight t).isEmpty && a.isWhitespace
    · rw [if_pos hc] at h
      exact absurd h.symm (by simp)
    · rw [if_neg hc] at h
      cases pre with
      | nil =>
        simp only [List.nil_append, List.cons.injEq] at h
        obtain ⟨rfl, hnil⟩ := h
        simp only [hnil, List.isEmpty_nil, Bool.true_and] at hc
        simpa using hc
      | cons p0 pre' =>
        simp only [List.cons_append, List.cons.injEq] at h
        exact ih pre' c h.2

lemma stripChars_last (x pre : List Char) (c : Char)
    (h : stripChars x = pre ++ [c]) : c.isWhitespace = false :=
  stripRight_last _ pre c h

end RedBlue

namespace RedBlue

lemma pyFindBrace_head (t1 : List Char) : pyFindBrace ('{' :: t1) = some 0 := by
  unfold pyFindBrace
  simp [List.findIdx?_cons]

lemma pyRFindBrace_concat (pre : List Char) :
    pyRFindBrace (pre ++ ['}']) = some ((pre ++ ['}']).length - 1) := by
  unfold pyRFindBrace
  rw [List.reverse_append]
  simp only [List.reverse_cons, List.reverse_nil, List.nil_append,
    List.singleton_append]
  rw [List.findIdx?_cons]
  simp

/-- When the whole (stripped) text parses as a JSON object, the first `{` is
its first character and the last `}` its last, so the brace-to-brace slice
is the whole text. -/
lemma braceSpan_self_of_loads_obj (t : List Char)
    (hskip : skipWs t = t)
    (hlast : ∀ pre c, t = pre ++ [c] → c.isWhitespace = false)
    (d : List (List Char × Json))
    (h : jsonLoads t = some (Json.obj d)) :
    braceSpan t = some t := by
  unfold jsonLoads at h
  cases hp : parseValue (jsonFuel t) (skipWs t) with
  | none => rw [hp] at h; simp at h
  | some pv =>
    rw [hp] at h
    obtain ⟨v, r⟩ := pv
    dsimp only at h
    by_cases hemp : (skipWs r).isEmpty
    · rw [if_pos hemp] at h
      simp only [Option.some.injEq] at h
      subst h
      rw [hskip] at hp
      obtain ⟨t1, rfl⟩ := parseValue_obj_head _ t d r hp
      have hL2 : ('}' :: r) <:+ ('{' :: t1) := by
        cases hf : jsonFuel ('{' :: t1) with
        | zero => rw [hf] at hp; simp [parseValue] at hp
        | succ n =>
          rw [hf] at hp
          unfold parseValue at hp
          rw [if_pos rfl] at hp
          obtain ⟨⟨ms, r'⟩, hm, heq⟩ := Option.map_eq_some'.mp hp
          simp only [Prod.mk.injEq] at heq
          rw [← heq.2]
          exact ((parse_suffix n).2.1 t1 ms r' hm).trans
            (List.suffix_cons '{' t1)
      have hrnil : r = [] := by
        rcases List.eq_nil_or_concat r with hr | ⟨r0, c0, hr0⟩
        · exact hr
        · exfalso
          rw [List.concat_eq_append] at hr0
          subst hr0
          obtain ⟨pre, hpre⟩ := hL2
          have hall : ∀ c ∈ r0 ++ [c0], c.isWhitespace = true := by
            have hnil : skipWs (r0 ++ [c0]) = [] := List.isEmpty_iff.mp hemp
            intro c hcmem
            exact List.dropWhile_eq_nil_iff.mp hnil c hcmem
          have hshape : ('{' :: t1) = (pre ++ '}' :: r0) ++ [c0] := by
            rw [← hpre]
            simp
          exact absurd (hall c0 (by simp))
            (by simp [hlast _ _ hshape])
      subst hrnil
      obtain ⟨pre, hpre⟩ := hL2
      unfold braceSpan
      rw [pyFindBrace_head t1]
      have hrf : pyRFindBrace ('{' :: t1) = some (('{' :: t1).length - 1) := by
        rw [← hpre]
        exact pyRFindBrace_concat pre
      rw [hrf]
      dsimp only
      have hlen : 1 ≤ t1.length := by
        rcases pre with _ | ⟨p0, pre'⟩
        · simp only [List.nil_append, List.cons.injEq] at hpre
          exact absurd hpre.1 (by decide)
        · have := congrArg List.length hpre
          simp at this
          omega
      rw [if_pos (by simp; omega : 0 < ('{' :: t1).length - 1)]
      rw [List.drop_zero]
      have htake : ('{' :: t1).length - 1 - 0 + 1 = ('{' :: t1).length := by
        simp
      rw [htake, List.take_length]
    · rw [if_neg hemp] at h
      simp at h

end RedBlue

namespace RedBlue

/-- Two JSON objects with prose between them: the slice from the first `{`
to the last `}` is not valid JSON, although the text contains a well-formed
JSON object. -/
def c8Text : String := "\x7b\x7d \x7b\x7d"

/-- C8 counterexample: `_extract_first_json_object` does not return the
first well-formed JSON object of every string that contains one — on a
string holding two JSON objects it raises instead, because it only ever
parses the whole text or the single slice from the first `{` to the last
`}`. -/
theorem claim_C8_counterexample :
    containsJsonObject c8Text = true
    ∧ _extract_first_json_object c8Text = none := by
  constructor
  · decide
  · rfl

/-- C8 (amended): `_extract_first_json_object` succeeds exactly through its
two parse attempts: whenever the slice of the stripped text from the first
`{` to the last `}` parses as a JSON object (in particular for one JSON
object surrounded by prose), that object is returned — also when the whole
stripped text already parses as an object, in which case the slice is the
whole text and the two attempts agree; in every other case it raises, even
if a well-formed JSON object occurs elsewhere in the string. -/
theorem claim_C8_brace_slice_extraction (text : String) (snippet : List Char)
    (m : List (List Char × Json))
    (hspan : braceSpan (stripChars text.data) = some snippet)
    (hparse : jsonLoads snippet = some (Json.obj m)) :
    _extract_first_json_object text = some (Json.obj m) := by
  unfold _extract_first_json_object
  dsimp only
  cases hload : jsonLoads (stripChars text.data) with
  | none =>
    dsimp only
    rw [hspan]
    dsimp only
    rw [hparse]
  | some v =>
    cases v with
    | obj d =>
      have hbs := braceSpan_self_of_loads_obj (stripChars text.data)
        (stripChars_skipWs text.data)
        (fun pre c hc => stripChars_last text.data pre c hc) d hload
      rw [hspan] at hbs
      have hsnip : snippet = stripChars text.data :=
        (Option.some.injEq _ _).mp hbs
      rw [hsnip] at hparse
      rw [hparse] at hload
      dsimp only
      exact hload.symm
    | null =>
      dsimp only
      rw [hspan]
      dsimp only
      rw [hparse]
    | bool b =>
      dsimp only
      rw [hspan]
      dsimp only
      rw [hparse]
    | num q =>
      dsimp only
      rw [hspan]
      dsimp only
      rw [hparse]
    | str s =>
      dsimp only
      rw [hspan]
      dsimp only
      rw [hparse]
    | arr es =>
      dsimp only
      rw [hspan]
      dsimp only
      rw [hparse]

theorem claim_C8_witness :
    (braceSpan (stripChars ("x \x7b\x7d y").data) = some (("\x7b\x7d").data))
    ∧ (jsonLoads (("\x7b\x7d").data) = some (Json.obj []))
    ∧ _extract_first_json_object "x \x7b\x7d y" = some (Json.obj []) :=
  ⟨rfl, rfl,
    claim_C8_brace_slice_extraction ("x \x7b\x7d y") (("\x7b\x7d").data) []
      rfl rfl⟩

end RedBlue
